import Mathlib

/-!
Shallow embedding of `src/extract_data_from_pdf.py` (KB bank-statement
transaction extractor).  Python strings are Lean `String`s, the mutable
transaction dict is an association list of `String × PyVal`, regexes are
hand-compiled deterministic matchers that replicate CPython `re` semantics
(leftmost match, greedy quantifiers with backtracking) for the exact
patterns of the source.  Machine floats are modelled by exact rationals:
every numeric literal the program compares is an exact decimal.
The model is faithful for ASCII text plus NBSP; full Unicode NFKD folding
(`unicodedata`), locale upper/lower casing beyond ASCII and the
inf/nan/underscore forms of Python `float` are outside the model.
-/

namespace KB

/-- A Python value as stored in the transaction dict: `None`, a `str`, or a
float (modelled as an exact rational). -/
inductive PyVal
  | none
  | str (s : String)
  | num (q : ℚ)
  deriving DecidableEq, Repr

/-- Python truthiness for the values above: `None`, `""` and `0.0` are falsy. -/
def PyVal.truthy : PyVal → Bool
  | PyVal.none => false
  | PyVal.str s => s != ""
  | PyVal.num q => q != 0

/-- The string content of a value, `""` for anything non-string (used to model
`tx.get(key, "")` sites that are only reached when the value is a string). -/
def PyVal.asStr : PyVal → String
  | PyVal.str s => s
  | _ => ""

/-- The transaction dict: an insertion-ordered association list. -/
abbrev Tx := List (String × PyVal)

/-- `tx.get(k)`: the stored value, `None` when the key is absent. -/
def dget : Tx → String → PyVal
  | [], _ => PyVal.none
  | (k', v) :: rest, k => if k' = k then v else dget rest k

/-- Key membership (dict key presence, distinct from a stored `None`). -/
def dmem : Tx → String → Bool
  | [], _ => false
  | (k', _) :: rest, k => if k' = k then true else dmem rest k

/-- `tx[k] = v`: update in place when present, append otherwise. -/
def dset : Tx → String → PyVal → Tx
  | [], k, v => [(k, v)]
  | (k', v') :: rest, k, v =>
    if k' = k then (k, v) :: rest else (k', v') :: dset rest k v

/-- `tx.pop(k, None)`: remove the key. -/
def dpop : Tx → String → Tx
  | [], _ => []
  | (k', v') :: rest, k => if k' = k then dpop rest k else (k', v') :: dpop rest k

/-- `tx.update(d)`: fold the entries of `d` into `tx` in order. -/
def dupdate (tx : Tx) (d : Tx) : Tx :=
  d.foldl (fun a kv => dset a kv.1 kv.2) tx

abbrev Chars := List Char

/-- Whitespace as Python `str.strip`/`\s` sees it on the texts in scope
(ASCII whitespace plus NBSP). -/
def isPyWs (c : Char) : Bool :=
  c = ' ' || c = '\t' || c = '\n' || c = '\r' || c = '\u000B' ||
    c = '\u000C' || c = '\u00A0'

/-- `\w` (ASCII model). -/
def isWordC (c : Char) : Bool := c.isAlphanum || c = '_'

/-- `\b` holds before a word character when the previous character (if any)
is not a word character. -/
def boundaryBefore : Option Char → Bool
  | Option.none => true
  | some p => !isWordC p

/-- `\b` after a word character: next character absent or not a word char. -/
def boundaryAfter : Chars → Bool
  | [] => true
  | c :: _ => !isWordC c

def pyStripChars (cs : Chars) : Chars :=
  ((cs.dropWhile isPyWs).reverse.dropWhile isPyWs).reverse

/-- Python `str.strip()`. -/
def pyStrip (s : String) : String := String.mk (pyStripChars s.data)

/-- Python `s.replace(c, "")` for a single character. -/
def removeChar (s : String) (c : Char) : String :=
  String.mk (s.data.filter (fun d => d != c))

/-- Python `s.replace(old, new)` for single characters. -/
def mapChar (s : String) (old new : Char) : String :=
  String.mk (s.data.map (fun d => if d = old then new else d))

/-- ASCII uppercase of one character (explicit table). -/
def asciiUpper : Char → Char
  | 'a' => 'A'
  | 'b' => 'B'
  | 'c' => 'C'
  | 'd' => 'D'
  | 'e' => 'E'
  | 'f' => 'F'
  | 'g' => 'G'
  | 'h' => 'H'
  | 'i' => 'I'
  | 'j' => 'J'
  | 'k' => 'K'
  | 'l' => 'L'
  | 'm' => 'M'
  | 'n' => 'N'
  | 'o' => 'O'
  | 'p' => 'P'
  | 'q' => 'Q'
  | 'r' => 'R'
  | 's' => 'S'
  | 't' => 'T'
  | 'u' => 'U'
  | 'v' => 'V'
  | 'w' => 'W'
  | 'x' => 'X'
  | 'y' => 'Y'
  | 'z' => 'Z'
  | c => c

/-- Python `str.upper()` (ASCII model). -/
def pyUpper (s : String) : String := String.mk (s.data.map asciiUpper)

/-- Python `str.lower()` (ASCII model). -/
def pyLower (s : String) : String := String.mk (s.data.map Char.toLower)

def strStartsWith (s pat : String) : Bool := pat.data.isPrefixOf s.data

/-- Substring test (`pat in s`). -/
def isSubstrChars (pat : Chars) : Chars → Bool
  | [] => pat.isEmpty
  | c :: r => pat.isPrefixOf (c :: r) || isSubstrChars pat r

def isSubstr (pat s : String) : Bool := isSubstrChars pat.data s.data

/-- `line.split(":", 1)[-1].strip()`: the text after the first colon, the
whole line when there is none, stripped. -/
def afterColon (line : String) : String :=
  let cs := line.data
  if cs.any (fun c => c == ':') then
    String.mk (pyStripChars ((cs.dropWhile (fun c => c != ':')).drop 1))
  else
    String.mk (pyStripChars cs)

/-- Python `str.split()` with no argument: split on whitespace runs,
dropping empty pieces. -/
def pySplitFuel : Nat → Chars → List String
  | 0, _ => []
  | _ + 1, [] => []
  | n + 1, c :: rest =>
    if isPyWs c then pySplitFuel n rest
    else
      String.mk (c :: rest.takeWhile (fun d => !isPyWs d)) ::
        pySplitFuel n (rest.dropWhile (fun d => !isPyWs d))

def pySplit (s : String) : List String := pySplitFuel s.data.length s.data

def joinBar (xs : List String) : String := String.intercalate " | " xs

def joinSpace (xs : List String) : String := String.intercalate " " xs

/-- `re.sub(r"\s{2,}", " ", s)`: a run of two or more whitespace characters
becomes a single space; an isolated whitespace character is kept verbatim. -/
def collapseWs2Fuel : Nat → Chars → Chars
  | 0, cs => cs
  | _ + 1, [] => []
  | n + 1, c :: rest =>
    if isPyWs c then
      match rest with
      | d :: _ =>
        if isPyWs d then ' ' :: collapseWs2Fuel n (rest.dropWhile isPyWs)
        else c :: collapseWs2Fuel n rest
      | [] => [c]
    else c :: collapseWs2Fuel n rest

def collapseWs2 (s : String) : String :=
  String.mk (collapseWs2Fuel s.data.length s.data)

/-- Python `s.replace(pat, repl)` for a non-empty pattern string
(leftmost, non-overlapping, all occurrences). -/
def replaceSubFuel : Nat → Chars → Chars → Chars → Chars
  | 0, cs, _, _ => cs
  | n + 1, cs, pat, repl =>
    if pat ≠ [] && pat.isPrefixOf cs then
      repl ++ replaceSubFuel n (cs.drop pat.length) pat repl
    else
      match cs with
      | [] => []
      | c :: r => c :: replaceSubFuel n r pat repl

def replaceSub (s pat repl : String) : String :=
  String.mk (replaceSubFuel s.data.length s.data pat.data repl.data)

/-- Case-insensitive character equality (ASCII model). -/
def ciEq (a b : Char) : Bool := a.toLower = b.toLower

/-- Case-insensitive prefix test returning the rest. -/
def ciPrefixRest : Chars → Chars → Option Chars
  | [], cs => some cs
  | _ :: _, [] => Option.none
  | p :: ps, c :: cs => if ciEq p c then ciPrefixRest ps cs else Option.none

/-- `re.search(r"\bPAT\b", s, re.IGNORECASE)` for a fixed word `PAT`. -/
def wordSearchCIAux (pat : Chars) : Option Char → Chars → Bool
  | prev, cs =>
    (boundaryBefore prev &&
      (match ciPrefixRest pat cs with
       | some rest => boundaryAfter rest
       | Option.none => false)) ||
    (match cs with
     | [] => false
     | c :: r => wordSearchCIAux pat (some c) r)

def wordSearchCI (pat s : String) : Bool :=
  wordSearchCIAux pat.data Option.none s.data

/-- `re.sub(r"\bPAT\b", " ", s, flags=re.IGNORECASE)` for a fixed word. -/
def subWordCIFuel (pat : Chars) : Nat → Option Char → Chars → Chars
  | 0, _, cs => cs
  | _ + 1, _, [] => []
  | n + 1, prev, c :: r =>
    match
      (if boundaryBefore prev then
        match ciPrefixRest pat (c :: r) with
        | some rest => if boundaryAfter rest then some rest else Option.none
        | Option.none => Option.none
      else Option.none) with
    | some rest => ' ' :: subWordCIFuel pat n (some 'a') rest
    | Option.none => c :: subWordCIFuel pat n (some c) r

def subWordCI (pat s : String) : String :=
  String.mk (subWordCIFuel pat.data s.data.length Option.none s.data)

def isUpperAZ (c : Char) : Bool := 'A' ≤ c && c ≤ 'Z'

def isAsciiAlphanum (c : Char) : Bool :=
  c.isDigit || ('A' ≤ c && c ≤ 'Z') || ('a' ≤ c && c ≤ 'z')

/-- `\d{1,2}\.`: one or two digits then a dot.  A shorter greedy take
leaves a digit where the dot is required, so the match is deterministic:
the whole digit run (which must have length 1 or 2) then the dot. -/
def pDayDot (cs : Chars) : Option (Chars × Chars) :=
  let ds := cs.takeWhile Char.isDigit
  if ds.length = 0 || ds.length > 2 then Option.none
  else
    match cs.dropWhile Char.isDigit with
    | '.' :: r => some (ds ++ ['.'], r)
    | _ => Option.none

/-- `\d{4}`: exactly four digits (further digits may follow the match). -/
def pYear4 : Chars → Option (Chars × Chars)
  | a :: b :: c :: d :: rest =>
    if a.isDigit && b.isDigit && c.isDigit && d.isDigit then
      some ([a, b, c, d], rest)
    else Option.none
  | _ => Option.none

/-- The date core shared by `DATE_RE` (`\d{1,2}\.\s*\d{1,2}\.\s*\d{4}`,
`strict = false`) and `HEADER_RE`'s leading date
(`\d{1,2}\.\s+\d{1,2}\.\s+\d{4}`, `strict = true`); returns the matched
characters and the rest.  The greedy `\s*`/`\s+` cannot backtrack because
whitespace and digits are disjoint. -/
def dateSkeleton (strict : Bool) (cs : Chars) : Option (Chars × Chars) :=
  match pDayDot cs with
  | Option.none => Option.none
  | some (d1, r1) =>
    if strict && (r1.takeWhile isPyWs).isEmpty then Option.none
    else
      match pDayDot (r1.dropWhile isPyWs) with
      | Option.none => Option.none
      | some (d2, r2) =>
        if strict && (r2.takeWhile isPyWs).isEmpty then Option.none
        else
          match pYear4 (r2.dropWhile isPyWs) with
          | Option.none => Option.none
          | some (y, r3) =>
            some (d1 ++ r1.takeWhile isPyWs ++ d2 ++ r2.takeWhile isPyWs ++ y, r3)

/-- `DATE_RE.match(line)` (source line 14): group 1, the match end index,
and the characters after the match. -/
def dateReMatch (s : String) : Option (String × Nat × Chars) :=
  match dateSkeleton false (s.data.dropWhile isPyWs) with
  | some (g, rest) =>
    some (String.mk g, (s.data.takeWhile isPyWs).length + g.length, rest)
  | Option.none => Option.none

/-- `(?:K\w|[A-Z]{3})\s*$` with the alternation backtracking of `re`
(`K\w` first, `[A-Z]{3}` if the rest of the pattern then fails); returns
the currency capture. -/
def ccyEnd (cs : Chars) : Option String :=
  let az : Option String :=
    match cs with
    | a :: b :: c :: rest =>
      if isUpperAZ a && isUpperAZ b && isUpperAZ c &&
          (rest.dropWhile isPyWs).isEmpty then
        some (String.mk [a, b, c])
      else Option.none
    | _ => Option.none
  match cs with
  | 'K' :: w :: rest =>
    if isWordC w && (rest.dropWhile isPyWs).isEmpty then
      some (String.mk ['K', w])
    else az
  | _ => az

/-- `\s+` then `ccyEnd` (greedy `\s+` cannot backtrack: the currency token
never starts with whitespace). -/
def wsCcyEnd : Chars → Option String
  | c :: rest => if isPyWs c then ccyEnd (rest.dropWhile isPyWs) else Option.none
  | [] => Option.none

/-- `,\d{2}` then `\s+` currency to end of string; `acc` is the amount
capture so far. -/
def amtComma (acc : Chars) : Chars → Option (Chars × String)
  | ',' :: a :: b :: rest =>
    if a.isDigit && b.isDigit then
      match wsCcyEnd rest with
      | some ccy => some (acc ++ [',', a, b], ccy)
      | Option.none => Option.none
    else Option.none
  | _ => Option.none

/-- `(?:[ .]\d{3})*,\d{2}\s+…$`: the greedy star is deterministic because
a non-maximal run of groups is followed by a group separator (space or
dot), never by the required comma. -/
def amtGroups (acc : Chars) : Chars → Option (Chars × String)
  | s :: a :: b :: c :: rest =>
    if (s = ' ' || s = '.') && a.isDigit && b.isDigit && c.isDigit then
      amtGroups (acc ++ [s, a, b, c]) rest
    else amtComma acc (s :: a :: b :: c :: rest)
  | cs => amtComma acc cs

/-- `(?:\d{1,3}(?:[ .]\d{3})*|\d+),\d{2}\s+(?:K\w|[A-Z]{3})\s*$`.
The first alternative requires the whole leading digit run (length ≤ 3);
when it fails, the second consumes the whole run before the comma. -/
def amtBodyEnd (cs : Chars) : Option (Chars × String) :=
  let ds := cs.takeWhile Char.isDigit
  let rest := cs.dropWhile Char.isDigit
  if ds.isEmpty then Option.none
  else
    match (if ds.length ≤ 3 then amtGroups ds rest else Option.none) with
    | some r => some r
    | Option.none => amtComma ds rest

/-- `(?P<amount>-?\s*(?:\d{1,3}(?:[ .]\d{3})*|\d+),\d{2})\s+(?P<currency>K\w|[A-Z]{3})\s*$`
anchored at the current position and reaching the end of the string;
returns (amount capture, currency capture). -/
def amtCcyEndParse (cs : Chars) : Option (String × String) :=
  let pre : Chars :=
    match cs with
    | '-' :: r => '-' :: r.takeWhile isPyWs
    | _ => cs.takeWhile isPyWs
  let cs1 : Chars :=
    match cs with
    | '-' :: r => r.dropWhile isPyWs
    | _ => cs.dropWhile isPyWs
  match amtBodyEnd cs1 with
  | some (body, ccy) => some (String.mk (pre ++ body), ccy)
  | Option.none => Option.none

def prevNotDigit : Option Char → Bool
  | Option.none => true
  | some p => !p.isDigit

/-- `HEADER_AMOUNT_RE.search(line)` (source lines 18-20): leftmost start
position (with the `(?<!\d)` lookbehind) whose match reaches the end of
the line; returns (characters before the match, amount, currency). -/
def hdrAmtSearchAux (acc : Chars) (prev : Option Char) :
    Chars → Option (Chars × String × String)
  | [] => Option.none
  | c :: r =>
    match (if prevNotDigit prev then amtCcyEndParse (c :: r) else Option.none) with
    | some (a, cc) => some (acc.reverse, a, cc)
    | Option.none => hdrAmtSearchAux (c :: acc) (some c) r

def headerAmountSearch (s : String) : Option (Chars × String × String) :=
  hdrAmtSearchAux [] Option.none s.data

/-- The `.*?(?<!\d)…\s*$` tail of `HEADER_RE`: scan forward for the first
position (not preceded by a digit) where the amount+currency suffix
matches to the end. -/
def hdrTailScan (prev : Char) : Chars → Bool
  | [] => false
  | c :: r =>
    (!prev.isDigit && (amtCcyEndParse (c :: r)).isSome) || hdrTailScan c r

/-- `HEADER_RE.match(line)` (source lines 21-23). -/
def headerReMatch (s : String) : Bool :=
  match dateSkeleton true (s.data.dropWhile isPyWs) with
  | some (g, rest) =>
    match g.getLast? with
    | some last => hdrTailScan last rest
    | Option.none => false
  | Option.none => false

/-- `PAGE_RE.match(s)` (source line 24): `^\d+/\d+$`. -/
def pageReMatch (s : String) : Bool :=
  let cs := s.data
  let d1 := cs.takeWhile Char.isDigit
  match cs.dropWhile Char.isDigit with
  | '/' :: r =>
    !d1.isEmpty && !(r.takeWhile Char.isDigit).isEmpty &&
      (r.dropWhile Char.isDigit).isEmpty
  | _ => false

/-- `FX_RATE_RE.match(line)` (source lines 32-34):
`^\s*1\s+(?P<currency>[A-Z]{3})\s*=\s*(?P<rate>\d[\d\s]*,\d+)\s*K\w\b`;
returns (currency, rate).  The greedy `[\d\s]*` is deterministic: a
shorter extent is followed by a class character, never by the comma. -/
def fxRateMatch (s : String) : Option (String × String) :=
  match s.data.dropWhile isPyWs with
  | '1' :: c1 :: rest =>
    if isPyWs c1 then
      match rest.dropWhile isPyWs with
      | a :: b :: c :: rest2 =>
        if isUpperAZ a && isUpperAZ b && isUpperAZ c then
          match rest2.dropWhile isPyWs with
          | '=' :: rest3 =>
            match rest3.dropWhile isPyWs with
            | d :: rest4 =>
              if d.isDigit then
                let cls : Char → Bool := fun x => x.isDigit || isPyWs x
                let run := rest4.takeWhile cls
                match rest4.dropWhile cls with
                | ',' :: rest5 =>
                  let ds := rest5.takeWhile Char.isDigit
                  if ds.isEmpty then Option.none
                  else
                    match (rest5.dropWhile Char.isDigit).dropWhile isPyWs with
                    | 'K' :: w :: rest6 =>
                      if isWordC w && boundaryAfter rest6 then
                        some (String.mk [a, b, c], String.mk (d :: run ++ ',' :: ds))
                      else Option.none
                    | _ => Option.none
                | _ => Option.none
              else Option.none
            | _ => Option.none
          | _ => Option.none
        else Option.none
      | _ => Option.none
    else Option.none
  | _ => Option.none

/-- `(?P<amount>\d[\d\s\.]*,\d{2})\s+(?P<currency>[A-Z]{3})\b` anchored at
the current position; returns (amount, currency, rest).  The greedy class
star is deterministic for the same reason as in `fxRateMatch`. -/
def fxAmtCcy : Chars → Option (String × String × Chars)
  | d :: rest =>
    if d.isDigit then
      let cls : Char → Bool := fun x => x.isDigit || isPyWs x || x = '.'
      let run := rest.takeWhile cls
      match rest.dropWhile cls with
      | ',' :: a :: b :: rest2 =>
        if a.isDigit && b.isDigit then
          match rest2 with
          | w :: rest3 =>
            if isPyWs w then
              match rest3.dropWhile isPyWs with
              | x :: y :: z :: rest4 =>
                if isUpperAZ x && isUpperAZ y && isUpperAZ z && boundaryAfter rest4 then
                  some (String.mk (d :: run ++ [',', a, b]), String.mk [x, y, z], rest4)
                else Option.none
              | _ => Option.none
            else Option.none
          | [] => Option.none
        else Option.none
      | _ => Option.none
    else Option.none
  | [] => Option.none

/-- `FX_DATE_AMOUNT_RE` body at the current position:
`(?P<date>\d{1,2}\.\d{1,2}\.\d{4})\s+amount\s+currency\b`. -/
def fxDateAmtAt (cs : Chars) : Option (String × String × String) :=
  match pDayDot cs with
  | some (d1, r1) =>
    match pDayDot r1 with
    | some (d2, r2) =>
      match pYear4 r2 with
      | some (y, r3) =>
        match r3 with
        | w :: r4 =>
          if isPyWs w then
            match fxAmtCcy (r4.dropWhile isPyWs) with
            | some (amt, ccy, _) => some (String.mk (d1 ++ d2 ++ y), amt, ccy)
            | Option.none => Option.none
          else Option.none
        | [] => Option.none
      | Option.none => Option.none
    | Option.none => Option.none
  | Option.none => Option.none

/-- `FX_DATE_AMOUNT_RE.search(line)` (source lines 26-28): returns
(characters before the match, date, amount, currency). -/
def fxDateAmtSearchAux (acc : Chars) : Chars → Option (Chars × String × String × String)
  | [] => Option.none
  | c :: r =>
    match fxDateAmtAt (c :: r) with
    | some (d, a, cc) => some (acc.reverse, d, a, cc)
    | Option.none => fxDateAmtSearchAux (c :: acc) r

def fxDateAmtSearch (s : String) : Option (Chars × String × String × String) :=
  fxDateAmtSearchAux [] s.data

/-- `FX_AMOUNT_ONLY_RE.match(line)` (source lines 29-31):
`^\s*(?P<amount>\d[\d\s\.]*,\d{2})\s+(?P<currency>[A-Z]{3})\b`. -/
def fxAmountOnlyMatch (s : String) : Option (String × String) :=
  match fxAmtCcy (s.data.dropWhile isPyWs) with
  | some (a, c, _) => some (a, c)
  | Option.none => Option.none

/-- `CARD_MASK_RE` body at the current position (source line 36):
`\d{4}\s\d{2}\*{2}\s\*{4}\s\d{4}\b`. -/
def mask1At : Chars → Option Chars
  | a :: b :: c :: d :: s1 :: e :: f :: '*' :: '*' :: s2 :: '*' :: '*' :: '*' :: '*' :: s3 :: g :: h :: i :: j :: rest =>
    if a.isDigit && b.isDigit && c.isDigit && d.isDigit && isPyWs s1 &&
        e.isDigit && f.isDigit && isPyWs s2 && isPyWs s3 &&
        g.isDigit && h.isDigit && i.isDigit && j.isDigit && boundaryAfter rest then
      some [a, b, c, d, s1, e, f, '*', '*', s2, '*', '*', '*', '*', s3, g, h, i, j]
    else Option.none
  | _ => Option.none

/-- `CARD_MASK_X_RE` body (source line 37): `\d{6}X{4,6}\d{4}\b`,
case-insensitive.  The bounded greedy `X{4,6}` is deterministic: a shorter
take leaves an `X` where a digit is required. -/
def maskXAt : Chars → Option Chars
  | a :: b :: c :: d :: e :: f :: rest =>
    if a.isDigit && b.isDigit && c.isDigit && d.isDigit && e.isDigit && f.isDigit then
      let isX : Char → Bool := fun x => x = 'X' || x = 'x'
      let xs := rest.takeWhile isX
      if 4 ≤ xs.length && xs.length ≤ 6 then
        match rest.dropWhile isX with
        | g :: h :: i :: j :: rest2 =>
          if g.isDigit && h.isDigit && i.isDigit && j.isDigit && boundaryAfter rest2 then
            some ([a, b, c, d, e, f] ++ xs ++ [g, h, i, j])
          else Option.none
        | _ => Option.none
      else Option.none
    else Option.none
  | _ => Option.none

/-- `CARD_MASK_STAR_RE` body (source line 38): `\d{6}\*{4,6}\d{4}\b`. -/
def maskStarAt : Chars → Option Chars
  | a :: b :: c :: d :: e :: f :: rest =>
    if a.isDigit && b.isDigit && c.isDigit && d.isDigit && e.isDigit && f.isDigit then
      let xs := rest.takeWhile (fun x => x = '*')
      if 4 ≤ xs.length && xs.length ≤ 6 then
        match rest.dropWhile (fun x => x = '*') with
        | g :: h :: i :: j :: rest2 =>
          if g.isDigit && h.isDigit && i.isDigit && j.isDigit && boundaryAfter rest2 then
            some ([a, b, c, d, e, f] ++ xs ++ [g, h, i, j])
          else Option.none
        | _ => Option.none
      else Option.none
    else Option.none
  | _ => Option.none

/-- `ACCOUNT_RE` body (source line 39): `\d{1,10}-\d{1,10}/\d{4}\b`
(the `\b` before it is checked by the search loop).  `\d{1,10}` must take
the whole digit run: a shorter take leaves a digit where `-`/`/` is
required. -/
def account1At (cs : Chars) : Option Chars :=
  let d1 := cs.takeWhile Char.isDigit
  if d1.isEmpty || d1.length > 10 then Option.none
  else
    match cs.dropWhile Char.isDigit with
    | '-' :: r =>
      let d2 := r.takeWhile Char.isDigit
      if d2.isEmpty || d2.length > 10 then Option.none
      else
        match r.dropWhile Char.isDigit with
        | '/' :: r2 =>
          match r2 with
          | a :: b :: c :: d :: rest =>
            if a.isDigit && b.isDigit && c.isDigit && d.isDigit && boundaryAfter rest then
              some (d1 ++ '-' :: d2 ++ '/' :: [a, b, c, d])
            else Option.none
          | _ => Option.none
        | _ => Option.none
    | _ => Option.none

/-- `ACCOUNT_RE2` body (source line 40): `\d{1,10}/\d{4}\b`. -/
def account2At (cs : Chars) : Option Chars :=
  let d1 := cs.takeWhile Char.isDigit
  if d1.isEmpty || d1.length > 10 then Option.none
  else
    match cs.dropWhile Char.isDigit with
    | '/' :: r2 =>
      match r2 with
      | a :: b :: c :: d :: rest =>
        if a.isDigit && b.isDigit && c.isDigit && d.isDigit && boundaryAfter rest then
          some (d1 ++ '/' :: [a, b, c, d])
        else Option.none
      | _ => Option.none
    | _ => Option.none

/-- `re.search` for a body starting with a word character and preceded by
`\b`: leftmost position with the boundary satisfied and the body matched. -/
def maskSearchAux (att : Chars → Option Chars) (prev : Option Char) :
    Chars → Option String
  | [] => Option.none
  | c :: r =>
    match (if boundaryBefore prev then att (c :: r) else Option.none) with
    | some m => some (String.mk m)
    | Option.none => maskSearchAux att (some c) r

def maskSearch (att : Chars → Option Chars) (s : String) : Option String :=
  maskSearchAux att Option.none s.data

def digitsNat (ds : Chars) : ℕ :=
  ds.foldl (fun a c => a * 10 + (c.toNat - 48)) 0

/-- The exact value `(-1)^neg * m / 10^scale * 10^ex` as a rational,
built with integer arithmetic and a single normalizing `mkRat` (the
kernel can evaluate this, unlike the `Rat` field operations). -/
def pyFloatVal (neg : Bool) (m : ℕ) (scale : ℕ) (ex : ℤ) : ℚ :=
  let mz : ℤ := if neg then -(m : ℤ) else (m : ℤ)
  let e : ℤ := ex - (scale : ℤ)
  if 0 ≤ e then mkRat (mz * 10 ^ e.toNat) 1 else mkRat mz (10 ^ (-e).toNat)

def pyFloatExpTail (neg : Bool) (m : ℕ) (scale : ℕ) (r : Chars) : Option ℚ :=
  let esgn : Bool := match r with
    | '-' :: _ => true
    | _ => false
  let r1 : Chars := match r with
    | '-' :: t => t
    | '+' :: t => t
    | _ => r
  let ds := r1.takeWhile Char.isDigit
  if ds.isEmpty || !(r1.dropWhile Char.isDigit).isEmpty then Option.none
  else
    some (pyFloatVal neg m scale
      (if esgn then -(digitsNat ds : ℤ) else (digitsNat ds : ℤ)))

def pyFloatFinish (neg : Bool) (m : ℕ) (scale : ℕ) : Chars → Option ℚ
  | [] => some (pyFloatVal neg m scale 0)
  | 'e' :: r2 => pyFloatExpTail neg m scale r2
  | 'E' :: r2 => pyFloatExpTail neg m scale r2
  | _ => Option.none

/-- Model of Python `float(s)` on the decimal shapes reachable here:
optional sign, digits with an optional `.` fractional part, optional
exponent.  The value is exact (ℚ) rather than IEEE-rounded; every
comparison made by the claims is on exactly representable decimals.
`inf`/`nan` and underscored literals are outside the model. -/
def pyFloat (s : String) : Option ℚ :=
  let cs := s.data
  let neg : Bool := match cs with
    | '-' :: _ => true
    | _ => false
  let cs1 : Chars := match cs with
    | '-' :: t => t
    | '+' :: t => t
    | _ => cs
  let ip := cs1.takeWhile Char.isDigit
  let r1 := cs1.dropWhile Char.isDigit
  match r1 with
  | '.' :: r2 =>
    let fp := r2.takeWhile Char.isDigit
    if ip.isEmpty && fp.isEmpty then Option.none
    else
      pyFloatFinish neg (digitsNat ip * 10 ^ fp.length + digitsNat fp) fp.length
        (r2.dropWhile Char.isDigit)
  | _ => if ip.isEmpty then Option.none else pyFloatFinish neg (digitsNat ip) 0 r1

/-- `cz_amount_to_float` (source lines 134-146).  Note that
`s.replace("-", "")` removes every minus sign, while the remembered sign
comes from a leading minus only. -/
def cz_amount_to_float (s0 : String) : Option ℚ :=
  let s1 := pyStrip s0
  let negative := strStartsWith s1 "-"
  let s2 := pyStrip (removeChar s1 '-')
  let s3 := removeChar (removeChar s2 ' ') ' '
  let s4 := if s3.data.any (fun c => c == ',') then removeChar s3 '.' else s3
  let s5 := mapChar s4 ',' '.'
  match pyFloat s5 with
  | Option.none => Option.none
  | some v => some (if negative then -v else v)

/-- `normalize_currency_token` (source lines 149-155); the argument is
`Option String` because Python call sites may pass `None` (falsy, like
`""`). -/
def normalize_currency_token : Option String → Option String
  | Option.none => Option.none
  | some t =>
    if t = "" then Option.none
    else
      let u := pyUpper (pyStrip t)
      if strStartsWith u "K" then some "CZK" else some u

/-- `normalize_text` (source lines 101-104): NFKD-decompose, drop
non-ASCII, lowercase.  ASCII-faithful model (NFKD is the identity on
ASCII; non-ASCII codepoints of the inputs in scope are dropped by the
ASCII filter either way). -/
def normalize_text (s : String) : String :=
  String.mk ((s.data.filter (fun c => c.toNat < 128)).map Char.toLower)

def COLUMNS : List String :=
  ["Datum", "Popis_hlavicka", "Protistrana", "Protiucet", "Karta",
   "Castka_CZK", "Castka_raw", "Datum_provedeni", "Kod_transakce",
   "Typ_transakce", "VS", "SS", "KS", "Zprava", "ATM_ID", "FX_mena",
   "FX_kurz", "FX_kurz_mena", "Doplnek", "Blok_text"]

def IGNORE_SUBSTRINGS : List String :=
  ["vypis z uctu", "datum vypisu", "informace o uctu", "zustatky",
   "pocatecni zustatek", "konecny zustatek", "komercni banka, a. s.",
   "zapsana v obchodnim rejstriku", "trvaly pobyt", "cislo uctu", "iban",
   "hlavni mena", "typ uctu", "transakce"]

def CONTINUATION_TRIGGERS : List String :=
  ["na", "pres", "za", "pro", "do", "od", "v", "ve", "s", "z", "extra",
   "vyrovnavaci"]

/-- `is_label_line` (source lines 107-109). -/
def is_label_line (line : String) : Bool :=
  isSubstr "datum proved" (normalize_text line) &&
    isSubstr "transakce" (normalize_text line)

/-- `is_message_line` (source lines 112-113). -/
def is_message_line (line : String) : Bool :=
  strStartsWith (normalize_text line) "zpr"

/-- `is_ignored_line` (source lines 116-122). -/
def is_ignored_line (line : String) : Bool :=
  if line = "" || pyStrip line = "" then true
  else if pageReMatch (pyStrip line) then true
  else IGNORE_SUBSTRINGS.any (fun t => isSubstr t (normalize_text line))

/-- `append_field` (source lines 125-131); the stored value at an
append site is always a string. -/
def append_field (tx : Tx) (key : String) (value : String) : Tx :=
  if value = "" then tx
  else if (dget tx key).truthy then
    dset tx key (PyVal.str ((dget tx key).asStr ++ " | " ++ value))
  else dset tx key (PyVal.str value)

/-- `looks_like_code_fragment` (source lines 158-164). -/
def looks_like_code_fragment (token : String) : Bool :=
  let t := pyStrip token
  if t.length < 8 then false
  else if !(t.data.all isAsciiAlphanum) then false
  else t.data.any Char.isDigit

/-- `parse_header_line` (source lines 167-229). -/
def parse_header_line (line : String) : Option Tx :=
  match dateReMatch line with
  | Option.none => Option.none
  | some (dgrp, dEnd, _) =>
    let mAmount := headerAmountSearch line
    let amount_text : Option String :=
      match mAmount with
      | some (_, a, _) => some (pyStrip a)
      | Option.none => Option.none
    let amount_value : Option ℚ :=
      match amount_text with
      | some a => if a = "" then Option.none else cz_amount_to_float a
      | Option.none => Option.none
    let header_currency : Option String :=
      match mAmount with
      | some (_, _, c) => normalize_currency_token (some c)
      | Option.none => Option.none
    let hwa0 : Chars :=
      match mAmount with
      | some (p, _, _) => p
      | Option.none => line.data
    let hwa1 : String := pyStrip (String.mk (hwa0.drop dEnd))
    let card_network : Option String :=
      if wordSearchCI "VISA" hwa1 then some "VISA"
      else if wordSearchCI "MASTERCARD" hwa1 then some "MASTERCARD"
      else Option.none
    let card : Option String :=
      match (match maskSearch mask1At hwa1 with
             | some m => some m
             | Option.none =>
               match maskSearch maskXAt hwa1 with
               | some m => some m
               | Option.none => maskSearch maskStarAt hwa1) with
      | some m => some (pyStrip m)
      | Option.none => Option.none
    let hwa2 : String :=
      match card with
      | some cd => replaceSub hwa1 cd " "
      | Option.none => hwa1
    let hwa3 : String :=
      match card_network with
      | some nw => subWordCI nw hwa2
      | Option.none => hwa2
    let mAcc : Option String :=
      match maskSearch account1At hwa3 with
      | some m => some m
      | Option.none => maskSearch account2At hwa3
    let hwa4 : String :=
      match mAcc with
      | some acc => replaceSub hwa3 acc " "
      | Option.none => hwa3
    let counterparty := pyStrip (collapseWs2 hwa4)
    some
      [("Datum", PyVal.str (pyStrip dgrp)),
       ("Popis_hlavicka",
         if counterparty = "" then PyVal.none else PyVal.str counterparty),
       ("Protistrana", PyVal.str counterparty),
       ("Protiucet",
         match mAcc with | some a => PyVal.str a | Option.none => PyVal.none),
       ("Karta",
         match card with | some cd => PyVal.str cd | Option.none => PyVal.none),
       ("Karta_sit",
         match card_network with
         | some n => PyVal.str n
         | Option.none => PyVal.none),
       ("Castka_raw",
         match amount_text with
         | some a => PyVal.str a
         | Option.none => PyVal.none),
       ("Castka_CZK",
         match amount_value with
         | some v => PyVal.num v
         | Option.none => PyVal.none),
       ("Mena_hlavicka",
         match header_currency with
         | some c => PyVal.str c
         | Option.none => PyVal.none)]

/-- `parse_detail_main_line` (source lines 232-258); the second return
value (the type text) is discarded by the only caller and omitted here. -/
def parse_detail_main_line (line : String) : Tx :=
  match dateReMatch line with
  | Option.none => []
  | some (dgrp, _, rest) =>
    let exec_date := pyStrip dgrp
    let tokens := pySplit (pyStrip (String.mk rest))
    if tokens.length < 4 then [("Datum_provedeni", PyVal.str exec_date)]
    else
      let last3 := tokens.drop (tokens.length - 3)
      let ttype := pyStrip (joinSpace ((tokens.drop 1).take (tokens.length - 4)))
      let clean : String → String := fun v => if v = "-" then "" else v
      [("Datum_provedeni", PyVal.str exec_date),
       ("Kod_transakce", PyVal.str (tokens.headD "")),
       ("Typ_transakce", PyVal.str ttype),
       ("VS", PyVal.str (clean (last3.headD ""))),
       ("SS", PyVal.str (clean ((last3.drop 1).headD ""))),
       ("KS", PyVal.str (clean ((last3.drop 2).headD "")))]

/-- `should_append_type` (source lines 261-292).  `current_type` is the
stored `Typ_transakce` value; a non-string value reads as `""`, matching
`current_type or ""` at the only call site. -/
def should_append_type (line : String) (current_type : PyVal) : Bool :=
  if line = "" || pyStrip line = "" then false
  else if line.data.any (fun c => c == ':') then false
  else if isSubstr " - " line then false
  else if line.data.any (fun c => c == '/') then false
  else if line.data.any (fun c => c == '*') then false
  else
    let n_line := normalize_text line
    if strStartsWith n_line "popis pro me" || strStartsWith n_line "id souvisejici" then
      false
    else
      let n_type := normalize_text current_type.asStr
      if n_type = "" then false
      else
        let last_word := (pySplit n_type).getLastD ""
        if CONTINUATION_TRIGGERS.contains last_word then true
        else if (pySplit n_type).length = 1 && (pySplit line).length ≤ 2 &&
            !(line.data.any Char.isDigit) then true
        else false

/-- The `if not tx.get(k): tx[k] = v` idiom of `parse_fx_line`. -/
def setIfUnset (tx : Tx) (k : String) (v : PyVal) : Tx :=
  if !(dget tx k).truthy then dset tx k v else tx

/-- `parse_fx_line` (source lines 295-328): the rate shape is tried first,
then date+amount, then amount-only; each field is only set when it is
currently falsy; a line merely containing "kurz" is consumed without
setting any field. -/
def parse_fx_line (line : String) (tx : Tx) : Tx × Bool :=
  match fxRateMatch line with
  | some (ccy, rate) =>
    let tx1 := setIfUnset tx "FX_kurz" (PyVal.str (removeChar rate ' '))
    let tx2 := setIfUnset tx1 "FX_kurz_mena" (PyVal.str ccy)
    (tx2, true)
  | Option.none =>
  match fxDateAmtSearch line with
  | some (pref, d, a, c) =>
    let tx1 := setIfUnset tx "FX_datum" (PyVal.str d)
    let tx2 := setIfUnset tx1 "FX_castka" (PyVal.str (removeChar a ' '))
    let tx3 := setIfUnset tx2 "FX_mena" (PyVal.str c)
    let p := String.mk (pyStripChars pref)
    let tx4 := if p != "" then setIfUnset tx3 "FX_info" (PyVal.str p) else tx3
    (tx4, true)
  | Option.none =>
  match fxAmountOnlyMatch line with
  | some (a, c) =>
    let tx1 := setIfUnset tx "FX_castka" (PyVal.str (removeChar a ' '))
    let tx2 := setIfUnset tx1 "FX_mena" (PyVal.str c)
    (tx2, true)
  | Option.none =>
    if isSubstr "kurz" (pyLower line) then (tx, true) else (tx, false)

/-- `handle_misc_line` (source lines 331-348). -/
def handle_misc_line (line : String) (tx : Tx) (extra : List String) :
    Tx × List String :=
  if is_ignored_line line then (tx, extra)
  else
    let n := normalize_text line
    if strStartsWith n "popis pro me" then
      (setIfUnset tx "Popis_pro_me" (PyVal.str (afterColon line)), extra)
    else if strStartsWith n "id souvisejici platby" then
      (setIfUnset tx "ID_souvisejici_platby" (PyVal.str (afterColon line)), extra)
    else if strStartsWith n "atm id" then
      (setIfUnset tx "ATM_ID" (PyVal.str (afterColon line)), extra)
    else (tx, extra ++ [pyStrip line])

/-- The first loop of `parse_detail_lines` (source lines 353-358): consume
lines up to the first date-anchored line, each through the FX parser and
otherwise the misc handler; returns the dict, the extras, and the
unconsumed suffix. -/
def detailPre (tx : Tx) (extra : List String) :
    List String → Tx × List String × List String
  | [] => (tx, extra, [])
  | l :: rest =>
    if (dateReMatch l).isSome then (tx, extra, l :: rest)
    else
      let r1 := parse_fx_line l tx
      if r1.2 then detailPre r1.1 extra rest
      else
        let r2 := handle_misc_line l r1.1 extra
        detailPre r2.1 r2.2 rest

/-- The loop after the detail main line (source lines 368-398); stops at a
message line, a recognized FX line, or another date-anchored line, and
returns the unconsumed suffix. -/
def detailLoop (tx : Tx) (extra : List String) :
    List String → Tx × List String × List String
  | [] => (tx, extra, [])
  | l :: rest =>
    if is_message_line l then (tx, extra, l :: rest)
    else
      let r1 := parse_fx_line l tx
      if r1.2 then (r1.1, extra, l :: rest)
      else if (dateReMatch l).isSome then (r1.1, extra, l :: rest)
      else if is_ignored_line l then detailLoop r1.1 extra rest
      else
        let tokens := pySplit (pyStrip l)
        if !tokens.isEmpty && (dget r1.1 "Kod_transakce").truthy &&
            looks_like_code_fragment (tokens.headD "") then
          let tx2 := dset r1.1 "Kod_transakce"
            (PyVal.str (pyStrip ((dget r1.1 "Kod_transakce").asStr ++ tokens.headD "")))
          let tx3 :=
            if tokens.length > 1 then
              let extra_type := pyStrip (joinSpace (tokens.drop 1))
              if extra_type != "" then
                dset tx2 "Typ_transakce"
                  (PyVal.str (pyStrip ((dget tx2 "Typ_transakce").asStr ++ " " ++ extra_type)))
              else tx2
            else tx2
          detailLoop tx3 extra rest
        else if should_append_type l (dget r1.1 "Typ_transakce") then
          detailLoop (dset r1.1 "Typ_transakce"
            (PyVal.str (pyStrip ((dget r1.1 "Typ_transakce").asStr ++ " " ++ pyStrip l))))
            extra rest
        else
          let r2 := handle_misc_line l r1.1 extra
          detailLoop r2.1 r2.2 rest

/-- `parse_detail_lines` (source lines 351-400): the dict, the collected
extra lines, and the still-unprocessed suffix of `lines`. -/
def parse_detail_lines (lines : List String) (tx : Tx) :
    Tx × List String × List String :=
  match detailPre tx [] lines with
  | (tx1, ex1, []) => (tx1, ex1, [])
  | (tx1, ex1, mainLine :: rest2) =>
    detailLoop (dupdate tx1 (parse_detail_main_line mainLine)) ex1 rest2

/-- The FX-currency fallback of `process_block` (source lines 444-445 and
478-479): when `FX_mena` is falsy it becomes the header currency, or
`"CZK"` when that is falsy too. -/
def applyFxDefault (tx : Tx) : Tx :=
  if (dget tx "FX_mena").truthy then tx
  else
    dset tx "FX_mena"
      (if (dget tx "Mena_hlavicka").truthy then dget tx "Mena_hlavicka"
       else PyVal.str "CZK")

/-- The common tail of both `process_block` exits (source lines 444-448
and 478-483): FX-currency default, audit text, removal of the transient
header-currency key. -/
def finishTx (tx : Tx) (block_lines : List String) : Tx :=
  dpop (dset (applyFxDefault tx) "Blok_text" (PyVal.str (joinBar block_lines)))
    "Mena_hlavicka"

/-- One pre-label line (source lines 454-457). -/
def phaseAStep (acc : Tx × List String) (l : String) : Tx × List String :=
  let r1 := parse_fx_line l acc.1
  if r1.2 then (r1.1, acc.2) else handle_misc_line l r1.1 acc.2

/-- One line after the detail walk stops (source lines 462-471). -/
def phaseDStep (acc : Tx × List String) (l : String) : Tx × List String :=
  if is_ignored_line l then acc
  else if is_message_line l then
    (append_field acc.1 "Zprava" (afterColon l), acc.2)
  else
    let r1 := parse_fx_line l acc.1
    if r1.2 then (r1.1, acc.2) else handle_misc_line l r1.1 acc.2

/-- `process_block` (source lines 434-483).  `block_lines[0]` presupposes
a non-empty block; the empty list maps to no record. -/
def process_block (block_lines : List String) : Option Tx :=
  match block_lines with
  | [] => Option.none
  | first :: _ =>
    match parse_header_line first with
    | Option.none => Option.none
    | some header =>
      let tx1 := dupdate (COLUMNS.foldl (fun d k => dset d k PyVal.none) []) header
      match block_lines.findIdx? is_label_line with
      | Option.none => some (finishTx tx1 block_lines)
      | some li =>
        let pre := (block_lines.drop 1).take (li - 1)
        let post := block_lines.drop (li + 1)
        let pA := pre.foldl phaseAStep (tx1, [])
        match parse_detail_lines post pA.1 with
        | (tx3, ex2, restL) =>
          let pD := restL.foldl phaseDStep (tx3, pA.2 ++ ex2)
          let tx5 := if !pD.2.isEmpty then
              dset pD.1 "Doplnek"
                (PyVal.str (joinBar (pD.2.filter (fun l => l != ""))))
            else pD.1
          some (finishTx tx5 block_lines)

/-- The block segmenter of `extract_transactions` (source lines 413-424),
as a recursion equivalent to the for loop: `cur` is the currently open
block (`[]` = none open); a header-shaped line closes the open block and
opens a new one, other lines extend the open block or are discarded. -/
def segGo (cur : List String) : List String → List (List String)
  | [] => if cur.isEmpty then [] else [cur]
  | l :: rest =>
    if headerReMatch l then
      (if cur.isEmpty then [] else [cur]) ++ segGo [l] rest
    else
      segGo (if cur.isEmpty then cur else cur ++ [l]) rest

def segmentLines (lines : List String) : List (List String) := segGo [] lines

/-- `extract_transactions` after the external PDF-to-lines step (source
lines 403-431): segment, process each block, keep the accepted records. -/
def extract_transactions (lines : List String) : List Tx :=
  (segmentLines lines).filterMap process_block

/-! Definitions written from the SPEC's wording, for comparison with the
source functions (refinement claims C6 and C8). -/

/-- The §4.3 `parse_amount` procedure exactly as the spec words it: strip,
remember and remove a LEADING minus sign only, drop spaces and no-break
spaces, drop literal dots when a decimal comma is present, comma to dot,
parse, reapply the sign. -/
def parse_amount_spec (s0 : String) : Option ℚ :=
  let t := pyStrip s0
  let negative := strStartsWith t "-"
  let t1 := if negative then String.mk (t.data.drop 1) else t
  let compact := removeChar (removeChar t1 ' ') '\u00A0' 
  let undotted :=
    if compact.data.any (fun c => c == ',') then
      String.mk (compact.data.filter (fun c => c != '.'))
    else compact
  let pointed := String.mk (undotted.data.map (fun c => if c = ',' then '.' else c))
  (pyFloat pointed).map (fun v => if negative then -v else v)

/-- The §4.3 procedure amended to what the code does with minus signs:
EVERY minus sign is removed (the sign still remembered from a leading
minus only) and the result is stripped again before the space removal. -/
def parse_amount_amended (s0 : String) : Option ℚ :=
  let t := pyStrip s0
  let negative := strStartsWith t "-"
  let t1 := pyStrip (removeChar t '-')
  let compact := removeChar (removeChar t1 ' ') '\u00A0' 
  let undotted :=
    if compact.data.any (fun c => c == ',') then
      String.mk (compact.data.filter (fun c => c != '.'))
    else compact
  let pointed := String.mk (undotted.data.map (fun c => if c = ',' then '.' else c))
  (pyFloat pointed).map (fun v => if negative then -v else v)

/-- `parse_fx_line` in the order §4.5 states it (date+amount first,
amount-only second, the unit rate quotation last), for comparison with
the code's order. -/
def parse_fx_line_spec (line : String) (tx : Tx) : Tx × Bool :=
  match fxDateAmtSearch line with
  | some (pref, d, a, c) =>
    let tx1 := setIfUnset tx "FX_datum" (PyVal.str d)
    let tx2 := setIfUnset tx1 "FX_castka" (PyVal.str (removeChar a ' '))
    let tx3 := setIfUnset tx2 "FX_mena" (PyVal.str c)
    let p := String.mk (pyStripChars pref)
    let tx4 := if p != "" then setIfUnset tx3 "FX_info" (PyVal.str p) else tx3
    (tx4, true)
  | Option.none =>
  match fxAmountOnlyMatch line with
  | some (a, c) =>
    let tx1 := setIfUnset tx "FX_castka" (PyVal.str (removeChar a ' '))
    let tx2 := setIfUnset tx1 "FX_mena" (PyVal.str c)
    (tx2, true)
  | Option.none =>
  match fxRateMatch line with
  | some (ccy, rate) =>
    let tx1 := setIfUnset tx "FX_kurz" (PyVal.str (removeChar rate ' '))
    let tx2 := setIfUnset tx1 "FX_kurz_mena" (PyVal.str ccy)
    (tx2, true)
  | Option.none =>
    if isSubstr "kurz" (pyLower line) then (tx, true) else (tx, false)

/-! Concrete inputs for the scenario claims. -/

/-- A label line (`is_label_line` holds: it contains "datum proved" and
"transakce" after normalization). -/
def labelLine : String := "Datum provedeni Popis transakce"

/-- The C1 scenario block: a header, then the two FX body lines of the
claim (in the pre-label section, where `process_block` routes every line
through `parse_fx_line`), then the label line. -/
def c1Block : List String :=
  ["1. 3. 2024 PAYMENT 100,00 CZK", "10.3.2024 50,00 USD",
   "1 USD = 22,50 Kc", labelLine]

/-- The C2 scenario block exactly as the claim words it. -/
def c2Block : List String :=
  ["12. 3. 2024 SOME SHOP LTD 123456 45** **** 7890 -456,00 CZK",
   labelLine, "13. 3. 2024 CODE PLATBA KARTOU - - -"]

/-- An accepted block without a label line whose body line matches no
classifier (not ignorable, not FX, not a labeled misc line). -/
def c4Block : List String :=
  ["1. 3. 2024 PAYMENT 100,00 CZK", "UNMATCHED FREE TEXT"]

/-- A line matched by both the rate shape (at its start) and the
date+amount shape (later on): the two tried orders diverge on it. -/
def c8Line : String := "1 USD = 22,50 Kc 1.1.2024 10,00 EUR"

/-- The twenty-six ASCII uppercase letters (the image of `asciiUpper` on
the lowercase range). -/
def upperAZchars : List Char :=
  ['A', 'B', 'C', 'D', 'E', 'F', 'G', 'H', 'I', 'J', 'K', 'L', 'M',
   'N', 'O', 'P', 'Q', 'R', 'S', 'T', 'U', 'V', 'W', 'X', 'Y', 'Z']

/-- Every dict key written after the header overlay in `process_block`
(by the FX parser, the misc handler, the detail walk, the message
accumulator and the final assembly).  Keys outside this list keep the
value the header overlay gave them. -/
def DETAIL_WRITE_KEYS : List String :=
  ["FX_kurz", "FX_kurz_mena", "FX_datum", "FX_castka", "FX_mena", "FX_info",
   "Popis_pro_me", "ID_souvisejici_platby", "ATM_ID", "Datum_provedeni",
   "Kod_transakce", "Typ_transakce", "VS", "SS", "KS", "Zprava", "Doplnek",
   "Blok_text", "Mena_hlavicka"]

/-! ## Dictionary lemmas -/

theorem dget_dset_self (tx : Tx) (k : String) (v : PyVal) :
    dget (dset tx k v) k = v := by
  induction tx with
  | nil => simp [dset, dget]
  | cons hd tl ih =>
    obtain ⟨k', v'⟩ := hd
    by_cases h : k' = k <;> simp [dset, dget, h, ih]

theorem dget_dset_ne (tx : Tx) {k' k : String} (v : PyVal) (h : k' ≠ k) :
    dget (dset tx k' v) k = dget tx k := by
  induction tx with
  | nil => simp [dset, dget, h]
  | cons hd tl ih =>
    obtain ⟨k₀, v₀⟩ := hd
    by_cases h0 : k₀ = k' <;> simp [dset, dget, h0, h, ih]

theorem dmem_dset_self (tx : Tx) (k : String) (v : PyVal) :
    dmem (dset tx k v) k = true := by
  induction tx with
  | nil => simp [dset, dmem]
  | cons hd tl ih =>
    obtain ⟨k₀, v₀⟩ := hd
    by_cases h0 : k₀ = k <;> simp [dset, dmem, h0, ih]

theorem dmem_dset_mono (tx : Tx) {k : String} (k' : String) (v : PyVal)
    (h : dmem tx k = true) : dmem (dset tx k' v) k = true := by
  induction tx with
  | nil => simp [dmem] at h
  | cons hd tl ih =>
    obtain ⟨k₀, v₀⟩ := hd
    by_cases h0 : k₀ = k'
    · subst h0
      by_cases h1 : k₀ = k <;> simp_all [dset, dmem]
    · by_cases h1 : k₀ = k <;> simp_all [dset, dmem]

theorem dget_dpop_ne (tx : Tx) {k' k : String} (h : k' ≠ k) :
    dget (dpop tx k') k = dget tx k := by
  induction tx with
  | nil => simp [dpop]
  | cons hd tl ih =>
    obtain ⟨k₀, v₀⟩ := hd
    by_cases h0 : k₀ = k' <;> by_cases h1 : k₀ = k <;>
      simp_all [dpop, dget]

theorem dmem_dpop_self (tx : Tx) (k : String) :
    dmem (dpop tx k) k = false := by
  induction tx with
  | nil => simp [dpop, dmem]
  | cons hd tl ih =>
    obtain ⟨k₀, v₀⟩ := hd
    by_cases h0 : k₀ = k <;> simp [dpop, dmem, h0, ih]

theorem dmem_dpop_ne (tx : Tx) {k' k : String} (h : k' ≠ k) :
    dmem (dpop tx k') k = dmem tx k := by
  induction tx with
  | nil => simp [dpop]
  | cons hd tl ih =>
    obtain ⟨k₀, v₀⟩ := hd
    by_cases h0 : k₀ = k' <;> by_cases h1 : k₀ = k <;>
      simp_all [dpop, dmem]

theorem dmem_dupdate_mono (d : Tx) (tx : Tx) {k : String}
    (h : dmem tx k = true) : dmem (dupdate tx d) k = true := by
  induction d generalizing tx with
  | nil => simpa [dupdate] using h
  | cons hd tl ih =>
    simpa [dupdate, List.foldl_cons] using
      ih (dset tx hd.1 hd.2) (dmem_dset_mono tx hd.1 hd.2 h)

/-! ## Small string lemmas -/

theorem truthy_str_mk_cons (c : Char) (l : Chars) :
    (PyVal.str (String.mk (c :: l))).truthy = true := by
  simp [PyVal.truthy, bne_iff_ne, String.ext_iff]

theorem removeChar_mk_cons_of_ne (c x : Char) (l : Chars) (h : c ≠ x) :
    removeChar (String.mk (c :: l)) x =
      String.mk (c :: (l.filter (fun d => d != x))) := by
  simp [removeChar, List.filter_cons, h]

theorem pyStripChars_cons_of_not_ws {a : Char} (l : Chars)
    (h : isPyWs a = false) : ∃ t, pyStripChars (a :: l) = a :: t := by
  unfold pyStripChars
  rw [List.dropWhile_cons_of_neg (by simp [h])]
  rw [show (a :: l).reverse = l.reverse ++ [a] by simp]
  rw [List.dropWhile_append]
  by_cases he : (l.reverse.dropWhile isPyWs).isEmpty
  · simp [he, List.dropWhile_cons_of_neg, h]
  · exact ⟨(l.reverse.dropWhile isPyWs).reverse, by simp [he]⟩

theorem not_ws_of_digit {c : Char} (h : c.isDigit = true) : isPyWs c = false := by
  by_contra hw
  simp only [isPyWs, Bool.or_eq_true, decide_eq_true_eq, Bool.not_eq_false] at hw
  rcases hw with ((((((h1 | h1) | h1) | h1) | h1) | h1) | h1) <;> subst h1 <;>
    exact absurd h (by decide)

theorem ne_space_of_digit {c : Char} (h : c.isDigit = true) : c ≠ ' ' := by
  intro h1
  subst h1
  exact absurd h (by decide)

theorem truthy_strip_of_digit_head {c : Char} (t : Chars) (h : c.isDigit = true) :
    (PyVal.str (pyStrip (String.mk (c :: t)))).truthy = true := by
  obtain ⟨t', ht'⟩ := pyStripChars_cons_of_not_ws t (not_ws_of_digit h)
  simp only [pyStrip, ht']
  exact truthy_str_mk_cons c t'

theorem truthy_removeChar_of_digit_head {c : Char} (t : Chars)
    (h : c.isDigit = true) :
    (PyVal.str (removeChar (String.mk (c :: t)) ' ')).truthy = true := by
  rw [removeChar_mk_cons_of_ne c ' ' t (ne_space_of_digit h)]
  exact truthy_str_mk_cons c _

/-! ## Matcher inversion lemmas -/

theorem pDayDot_shape {cs g r} (h : pDayDot cs = some (g, r)) :
    ∃ c t, g = c :: t ∧ c.isDigit = true := by
  unfold pDayDot at h
  simp only [] at h
  split at h
  · exact Option.noConfusion h
  · rename_i hcond
    split at h
    · rw [Option.some.injEq, Prod.mk.injEq] at h
      obtain ⟨hg, hr⟩ := h
      rcases hcs : cs.takeWhile Char.isDigit with _ | ⟨c, t⟩
      · simp [hcs] at hcond
      · refine ⟨c, t ++ ['.'], by rw [← hg, hcs]; simp, ?_⟩
        have hc : c ∈ cs.takeWhile Char.isDigit := by rw [hcs]; simp
        exact List.mem_takeWhile_imp hc
    · exact Option.noConfusion h

theorem fxAmtCcy_shape {cs amt ccy rest}
    (h : fxAmtCcy cs = some (amt, ccy, rest)) :
    (∃ d t, amt = String.mk (d :: t) ∧ d.isDigit = true) ∧
      ∃ x y z, ccy = String.mk [x, y, z] := by
  unfold fxAmtCcy at h
  simp only [] at h
  repeat' split at h
  all_goals try exact Option.noConfusion h
  rw [Option.some.injEq, Prod.mk.injEq, Prod.mk.injEq] at h
  obtain ⟨ha, hc, hr⟩ := h
  exact ⟨⟨_, _, ha.symm, by assumption⟩, _, _, _, hc.symm⟩

theorem fxRateMatch_shape {line ccy rate}
    (h : fxRateMatch line = some (ccy, rate)) :
    (∃ x y z, ccy = String.mk [x, y, z]) ∧
      ∃ d t, rate = String.mk (d :: t) ∧ d.isDigit = true := by
  unfold fxRateMatch at h
  simp only [] at h
  repeat' split at h
  all_goals try exact Option.noConfusion h
  rw [Option.some.injEq, Prod.mk.injEq] at h
  obtain ⟨hc, hr⟩ := h
  exact ⟨⟨_, _, _, hc.symm⟩, _, _, hr.symm, by assumption⟩

theorem fxDateAmtAt_shape {cs d a c}
    (h : fxDateAmtAt cs = some (d, a, c)) :
    (∃ x t, d = String.mk (x :: t) ∧ x.isDigit = true) ∧
      (∃ x t, a = String.mk (x :: t) ∧ x.isDigit = true) ∧
      ∃ x y z, c = String.mk [x, y, z] := by
  unfold fxDateAmtAt at h
  rcases h1 : pDayDot cs with _ | ⟨d1, r1⟩ <;> rw [h1] at h <;>
    simp only [] at h
  · exact Option.noConfusion h
  rcases h2 : pDayDot r1 with _ | ⟨d2, r2⟩ <;> rw [h2] at h <;>
    simp only [] at h
  · exact Option.noConfusion h
  rcases h3 : pYear4 r2 with _ | ⟨y, r3⟩ <;> rw [h3] at h <;>
    simp only [] at h
  · exact Option.noConfusion h
  rcases r3 with _ | ⟨w, r4⟩
  · exact Option.noConfusion h
  simp only [] at h
  by_cases hw : isPyWs w
  · rw [if_pos hw] at h
    rcases h4 : fxAmtCcy (r4.dropWhile isPyWs) with _ | ⟨amt, ccy, rest⟩ <;>
      rw [h4] at h
    · exact Option.noConfusion h
    rw [Option.some.injEq, Prod.mk.injEq, Prod.mk.injEq] at h
    obtain ⟨hd, ha, hc⟩ := h
    obtain ⟨c0, t0, hct, hdig⟩ := pDayDot_shape h1
    obtain ⟨⟨da, ta, hda, hdiga⟩, x, yy, z, hxyz⟩ := fxAmtCcy_shape h4
    refine ⟨⟨c0, t0 ++ (d2 ++ y), ?_, hdig⟩, ⟨da, ta, ?_, hdiga⟩, x, yy, z, ?_⟩
    · rw [← hd, hct]; simp
    · rw [← ha, hda]
    · rw [← hc, hxyz]
  · rw [if_neg hw] at h
    exact Option.noConfusion h

theorem fxDateAmtSearchAux_shape :
    ∀ (cs acc : Chars) {pre : Chars} {d a c : String},
      fxDateAmtSearchAux acc cs = some (pre, d, a, c) →
      ∃ cs', fxDateAmtAt cs' = some (d, a, c)
  | [], acc, pre, d, a, c, h => Option.noConfusion h
  | x :: r, acc, pre, d, a, c, h => by
    unfold fxDateAmtSearchAux at h
    split at h
    · rw [Option.some.injEq, Prod.mk.injEq, Prod.mk.injEq, Prod.mk.injEq] at h
      rename_i d' a' c' heq
      obtain ⟨hp, hd, ha, hc⟩ := h
      exact ⟨x :: r, by rw [heq, hd, ha, hc]⟩
    · exact fxDateAmtSearchAux_shape r (x :: acc) h

theorem fxAmountOnlyMatch_shape {line a c}
    (h : fxAmountOnlyMatch line = some (a, c)) :
    (∃ x t, a = String.mk (x :: t) ∧ x.isDigit = true) ∧
      ∃ x y z, c = String.mk [x, y, z] := by
  unfold fxAmountOnlyMatch at h
  split at h
  · rename_i amt ccy rest heq
    rw [Option.some.injEq, Prod.mk.injEq] at h
    obtain ⟨ha, hc⟩ := h
    obtain ⟨⟨da, ta, hda, hdiga⟩, x, y, z, hxyz⟩ := fxAmtCcy_shape heq
    exact ⟨⟨da, ta, by rw [← ha, hda], hdiga⟩, x, y, z, by rw [← hc, hxyz]⟩
  · exact Option.noConfusion h

/-! ## `setIfUnset` lemmas -/

theorem setIfUnset_get_self {tx : Tx} {k : String} {v : PyVal}
    (hv : v.truthy = true) : (dget (setIfUnset tx k v) k).truthy = true := by
  unfold setIfUnset
  by_cases h : (dget tx k).truthy <;> simp [h, dget_dset_self, hv]

theorem setIfUnset_get_other (tx : Tx) {k' k : String} (v : PyVal)
    (h : k' ≠ k) : dget (setIfUnset tx k' v) k = dget tx k := by
  unfold setIfUnset
  by_cases h0 : (dget tx k').truthy <;> simp [h0, dget_dset_ne tx v h]

theorem setIfUnset_noop {tx : Tx} {k : String} {v : PyVal}
    (h : (dget tx k).truthy = true) : setIfUnset tx k v = tx := by
  simp [setIfUnset, h]

theorem dmem_setIfUnset_mono (tx : Tx) {k : String} (k' : String) (v : PyVal)
    (h : dmem tx k = true) : dmem (setIfUnset tx k' v) k = true := by
  unfold setIfUnset
  by_cases h0 : (dget tx k').truthy <;> simp [h0, dmem_dset_mono tx k' v h, h]

/-! ## Key-stability lemmas -/

theorem ne_of_not_mem {k x : String} {L : List String} (h : k ∉ L)
    (hx : x ∈ L) : x ≠ k := fun he => h (he ▸ hx)

theorem parse_fx_line_dget_stable (line : String) (tx : Tx) {k : String}
    (h : k ∉ DETAIL_WRITE_KEYS) :
    dget (parse_fx_line line tx).1 k = dget tx k := by
  have n1 : "FX_kurz" ≠ k := ne_of_not_mem h (by decide)
  have n2 : "FX_kurz_mena" ≠ k := ne_of_not_mem h (by decide)
  have n3 : "FX_datum" ≠ k := ne_of_not_mem h (by decide)
  have n4 : "FX_castka" ≠ k := ne_of_not_mem h (by decide)
  have n5 : "FX_mena" ≠ k := ne_of_not_mem h (by decide)
  have n6 : "FX_info" ≠ k := ne_of_not_mem h (by decide)
  rcases hR : fxRateMatch line with _ | ⟨ccy, rate⟩
  · rcases hD : fxDateAmtSearch line with _ | ⟨pre, d, a, c⟩
    · rcases hA : fxAmountOnlyMatch line with _ | ⟨a, c⟩
      · by_cases hk : isSubstr "kurz" (pyLower line) <;>
          simp [parse_fx_line, hR, hD, hA, hk]
      · simp only [parse_fx_line, hR, hD, hA]
        rw [setIfUnset_get_other _ _ n5, setIfUnset_get_other _ _ n4]
    · simp only [parse_fx_line, hR, hD]
      by_cases hp : (String.mk (pyStripChars pre) != "") = true
      · simp only [hp, if_true]
        rw [setIfUnset_get_other _ _ n6, setIfUnset_get_other _ _ n5,
          setIfUnset_get_other _ _ n4, setIfUnset_get_other _ _ n3]
      · simp only [Bool.not_eq_true] at hp
        simp only [hp, Bool.false_eq_true, if_false]
        rw [setIfUnset_get_other _ _ n5, setIfUnset_get_other _ _ n4,
          setIfUnset_get_other _ _ n3]
  · simp only [parse_fx_line, hR]
    rw [setIfUnset_get_other _ _ n2, setIfUnset_get_other _ _ n1]

theorem handle_misc_line_dget_stable (line : String) (tx : Tx)
    (extra : List String) {k : String} (h : k ∉ DETAIL_WRITE_KEYS) :
    dget (handle_misc_line line tx extra).1 k = dget tx k := by
  have n1 : "Popis_pro_me" ≠ k := ne_of_not_mem h (by decide)
  have n2 : "ID_souvisejici_platby" ≠ k := ne_of_not_mem h (by decide)
  have n3 : "ATM_ID" ≠ k := ne_of_not_mem h (by decide)
  unfold handle_misc_line
  simp only []
  split
  · rfl
  · split
    · simp [setIfUnset_get_other _ _ n1]
    · split
      · simp [setIfUnset_get_other _ _ n2]
      · split
        · simp [setIfUnset_get_other _ _ n3]
        · rfl

theorem dget_dupdate_stable : ∀ (d : Tx) (tx : Tx) {k : String},
    (∀ kv ∈ d, kv.1 ≠ k) → dget (dupdate tx d) k = dget tx k
  | [], _, _, _ => rfl
  | kv :: rest, tx, k, h => by
    have h1 : kv.1 ≠ k := h kv (by simp)
    have h2 : ∀ kv' ∈ rest, kv'.1 ≠ k := fun kv' hm => h kv' (by simp [hm])
    calc dget (dupdate tx (kv :: rest)) k
        = dget (dupdate (dset tx kv.1 kv.2) rest) k := by
          simp [dupdate, List.foldl_cons]
      _ = dget (dset tx kv.1 kv.2) k := dget_dupdate_stable rest _ h2
      _ = dget tx k := dget_dset_ne tx kv.2 h1

theorem parse_detail_main_line_keys (line : String) :
    ∀ kv ∈ parse_detail_main_line line, kv.1 ∈ DETAIL_WRITE_KEYS := by
  unfold parse_detail_main_line
  split
  · intro kv hkv
    simp at hkv
  · simp only []
    split
    · intro kv hkv
      simp only [List.mem_singleton] at hkv
      subst hkv
      simp [DETAIL_WRITE_KEYS]
    · intro kv hkv
      simp only [List.mem_cons, List.not_mem_nil, or_false] at hkv
      rcases hkv with h1 | h1 | h1 | h1 | h1 | h1 <;> subst h1 <;>
        simp [DETAIL_WRITE_KEYS]

theorem detailPre_dget_stable : ∀ (lines : List String) (tx : Tx)
    (extra : List String) {k : String}, k ∉ DETAIL_WRITE_KEYS →
    dget (detailPre tx extra lines).1 k = dget tx k
  | [], _, _, _, _ => rfl
  | l :: rest, tx, extra, k, h => by
    by_cases hd : ((dateReMatch l).isSome : Bool) = true
    · simp [detailPre, hd]
    · by_cases hb : (parse_fx_line l tx).2 = true
      · simp only [detailPre, hd, hb, Bool.false_eq_true, if_false, if_true]
        rw [detailPre_dget_stable rest _ _ h, parse_fx_line_dget_stable _ _ h]
      · simp only [detailPre, hd, hb, Bool.false_eq_true, if_false]
        rw [detailPre_dget_stable rest _ _ h,
          handle_misc_line_dget_stable _ _ _ h, parse_fx_line_dget_stable _ _ h]

theorem detailLoop_dget_stable : ∀ (lines : List String) (tx : Tx)
    (extra : List String) {k : String}, k ∉ DETAIL_WRITE_KEYS →
    dget (detailLoop tx extra lines).1 k = dget tx k
  | [], _, _, _, _ => rfl
  | l :: rest, tx, extra, k, h => by
    have nKod : "Kod_transakce" ≠ k := ne_of_not_mem h (by decide)
    have nTyp : "Typ_transakce" ≠ k := ne_of_not_mem h (by decide)
    simp only [detailLoop]
    split
    · rfl
    · split
      · exact parse_fx_line_dget_stable _ _ h
      · split
        · exact parse_fx_line_dget_stable _ _ h
        · split
          · rw [detailLoop_dget_stable rest _ _ h]
            exact parse_fx_line_dget_stable _ _ h
          · split
            · rw [detailLoop_dget_stable rest _ _ h]
              split
              · split
                · rw [dget_dset_ne _ _ nTyp, dget_dset_ne _ _ nKod]
                  exact parse_fx_line_dget_stable _ _ h
                · rw [dget_dset_ne _ _ nKod]
                  exact parse_fx_line_dget_stable _ _ h
              · rw [dget_dset_ne _ _ nKod]
                exact parse_fx_line_dget_stable _ _ h
            · split
              · rw [detailLoop_dget_stable rest _ _ h, dget_dset_ne _ _ nTyp]
                exact parse_fx_line_dget_stable _ _ h
              · rw [detailLoop_dget_stable rest _ _ h,
                  handle_misc_line_dget_stable _ _ _ h]
                exact parse_fx_line_dget_stable _ _ h

theorem parse_detail_lines_dget_stable {lines : List String} {tx : Tx}
    {k : String} (h : k ∉ DETAIL_WRITE_KEYS) :
    dget (parse_detail_lines lines tx).1 k = dget tx k := by
  unfold parse_detail_lines
  split
  · rename_i tx1 ex1 heq
    have hpre := detailPre_dget_stable lines tx [] h
    rw [heq] at hpre
    exact hpre
  · rename_i tx1 ex1 mainLine rest2 heq
    rw [detailLoop_dget_stable rest2 _ _ h,
      dget_dupdate_stable _ _
        (fun kv hm => ne_of_not_mem h (parse_detail_main_line_keys mainLine kv hm))]
    have hpre := detailPre_dget_stable lines tx [] h
    rw [heq] at hpre
    exact hpre

theorem foldl_dget_stable {k : String}
    (step : (Tx × List String) → String → (Tx × List String))
    (hstep : ∀ a l, dget (step a l).1 k = dget a.1 k) :
    ∀ (ls : List String) (t : Tx) (e : List String),
      dget (ls.foldl step (t, e)).1 k = dget t k
  | [], _, _ => rfl
  | l :: rest, t, e => by
    rw [List.foldl_cons]
    have h2 := foldl_dget_stable step hstep rest (step (t, e) l).1 (step (t, e) l).2
    exact h2.trans (hstep (t, e) l)

theorem phaseAStep_dget_stable {k : String} (h : k ∉ DETAIL_WRITE_KEYS)
    (a : Tx × List String) (l : String) :
    dget (phaseAStep a l).1 k = dget a.1 k := by
  unfold phaseAStep
  simp only []
  split
  · exact parse_fx_line_dget_stable _ _ h
  · rw [handle_misc_line_dget_stable _ _ _ h]
    exact parse_fx_line_dget_stable _ _ h

theorem append_field_dget_stable (tx : Tx) (key : String) (v : String)
    {k : String} (h : key ≠ k) :
    dget (append_field tx key v) k = dget tx k := by
  unfold append_field
  split
  · rfl
  · split <;> rw [dget_dset_ne _ _ h]

theorem phaseDStep_dget_stable {k : String} (h : k ∉ DETAIL_WRITE_KEYS)
    (a : Tx × List String) (l : String) :
    dget (phaseDStep a l).1 k = dget a.1 k := by
  have nZ : "Zprava" ≠ k := ne_of_not_mem h (by decide)
  unfold phaseDStep
  split
  · rfl
  · split
    · exact append_field_dget_stable _ _ _ nZ
    · simp only []
      split
      · exact parse_fx_line_dget_stable _ _ h
      · rw [handle_misc_line_dget_stable _ _ _ h]
        exact parse_fx_line_dget_stable _ _ h

theorem applyFxDefault_dget_stable (tx : Tx) {k : String}
    (h : "FX_mena" ≠ k) : dget (applyFxDefault tx) k = dget tx k := by
  unfold applyFxDefault
  split
  · rfl
  · rw [dget_dset_ne _ _ h]

theorem finishTx_dget_stable (tx : Tx) (bl : List String) {k : String}
    (h1 : "FX_mena" ≠ k) (h2 : "Blok_text" ≠ k) (h3 : "Mena_hlavicka" ≠ k) :
    dget (finishTx tx bl) k = dget tx k := by
  unfold finishTx
  rw [dget_dpop_ne _ h3, dget_dset_ne _ _ h2, applyFxDefault_dget_stable tx h1]

theorem applyFxDefault_FX_mena (tx : Tx) :
    dget (applyFxDefault tx) "FX_mena" =
      (if (dget tx "FX_mena").truthy then dget tx "FX_mena"
       else if (dget tx "Mena_hlavicka").truthy then dget tx "Mena_hlavicka"
       else PyVal.str "CZK") := by
  unfold applyFxDefault
  split
  · rfl
  · rw [dget_dset_self]

theorem finishTx_FX_mena_truthy (tx : Tx) (bl : List String) :
    (dget (finishTx tx bl) "FX_mena").truthy = true := by
  unfold finishTx
  rw [dget_dpop_ne _ (by decide), dget_dset_ne _ _ (by decide),
    applyFxDefault_FX_mena]
  split
  · assumption
  · split
    · assumption
    · decide

/-! ## Key-presence (dmem) monotonicity -/

theorem dmem_parse_fx_line_mono (line : String) (tx : Tx) {k : String}
    (h : dmem tx k = true) : dmem (parse_fx_line line tx).1 k = true := by
  rcases hR : fxRateMatch line with _ | ⟨ccy, rate⟩
  · rcases hD : fxDateAmtSearch line with _ | ⟨pre, d, a, c⟩
    · rcases hA : fxAmountOnlyMatch line with _ | ⟨a, c⟩
      · by_cases hk : isSubstr "kurz" (pyLower line) <;>
          simp [parse_fx_line, hR, hD, hA, hk, h]
      · simp only [parse_fx_line, hR, hD, hA]
        exact dmem_setIfUnset_mono _ _ _ (dmem_setIfUnset_mono _ _ _ h)
    · simp only [parse_fx_line, hR, hD]
      by_cases hp : (String.mk (pyStripChars pre) != "") = true
      · simp only [hp, if_true]
        exact dmem_setIfUnset_mono _ _ _ (dmem_setIfUnset_mono _ _ _
          (dmem_setIfUnset_mono _ _ _ (dmem_setIfUnset_mono _ _ _ h)))
      · simp only [Bool.not_eq_true] at hp
        simp only [hp, Bool.false_eq_true, if_false]
        exact dmem_setIfUnset_mono _ _ _ (dmem_setIfUnset_mono _ _ _
          (dmem_setIfUnset_mono _ _ _ h))
  · simp only [parse_fx_line, hR]
    exact dmem_setIfUnset_mono _ _ _ (dmem_setIfUnset_mono _ _ _ h)

theorem dmem_handle_misc_line_mono (line : String) (tx : Tx)
    (extra : List String) {k : String} (h : dmem tx k = true) :
    dmem (handle_misc_line line tx extra).1 k = true := by
  unfold handle_misc_line
  simp only []
  split
  · exact h
  · split
    · exact dmem_setIfUnset_mono _ _ _ h
    · split
      · exact dmem_setIfUnset_mono _ _ _ h
      · split
        · exact dmem_setIfUnset_mono _ _ _ h
        · exact h

theorem dmem_detailPre_mono : ∀ (lines : List String) (tx : Tx)
    (extra : List String) {k : String}, dmem tx k = true →
    dmem (detailPre tx extra lines).1 k = true
  | [], _, _, _, h => h
  | l :: rest, tx, extra, k, h => by
    by_cases hd : ((dateReMatch l).isSome : Bool) = true
    · simpa [detailPre, hd] using h
    · by_cases hb : (parse_fx_line l tx).2 = true
      · simp only [detailPre, hd, hb, Bool.false_eq_true, if_false, if_true]
        exact dmem_detailPre_mono rest _ _ (dmem_parse_fx_line_mono _ _ h)
      · simp only [detailPre, hd, hb, Bool.false_eq_true, if_false]
        exact dmem_detailPre_mono rest _ _
          (dmem_handle_misc_line_mono _ _ _ (dmem_parse_fx_line_mono _ _ h))

theorem dmem_dupdate_keys_mono (d : Tx) (tx : Tx) {k : String}
    (h : dmem tx k = true) : dmem (dupdate tx d) k = true :=
  dmem_dupdate_mono d tx h

theorem dmem_detailLoop_mono : ∀ (lines : List String) (tx : Tx)
    (extra : List String) {k : String}, dmem tx k = true →
    dmem (detailLoop tx extra lines).1 k = true
  | [], _, _, _, h => h
  | l :: rest, tx, extra, k, h => by
    simp only [detailLoop]
    split
    · exact h
    · split
      · exact dmem_parse_fx_line_mono _ _ h
      · split
        · exact dmem_parse_fx_line_mono _ _ h
        · split
          · exact dmem_detailLoop_mono rest _ _ (dmem_parse_fx_line_mono _ _ h)
          · split
            · refine dmem_detailLoop_mono rest _ _ ?_
              split
              · split
                · exact dmem_dset_mono _ _ _ (dmem_dset_mono _ _ _
                    (dmem_parse_fx_line_mono _ _ h))
                · exact dmem_dset_mono _ _ _ (dmem_parse_fx_line_mono _ _ h)
              · exact dmem_dset_mono _ _ _ (dmem_parse_fx_line_mono _ _ h)
            · split
              · exact dmem_detailLoop_mono rest _ _
                  (dmem_dset_mono _ _ _ (dmem_parse_fx_line_mono _ _ h))
              · exact dmem_detailLoop_mono rest _ _
                  (dmem_handle_misc_line_mono _ _ _
                    (dmem_parse_fx_line_mono _ _ h))

theorem dmem_parse_detail_lines_mono (lines : List String) (tx : Tx)
    {k : String} (h : dmem tx k = true) :
    dmem (parse_detail_lines lines tx).1 k = true := by
  unfold parse_detail_lines
  split
  · rename_i tx1 ex1 heq
    have hpre := dmem_detailPre_mono lines tx [] h
    rw [heq] at hpre
    exact hpre
  · rename_i tx1 ex1 mainLine rest2 heq
    refine dmem_detailLoop_mono rest2 _ _ (dmem_dupdate_mono _ _ ?_)
    have hpre := dmem_detailPre_mono lines tx [] h
    rw [heq] at hpre
    exact hpre

theorem dmem_foldl_mono {k : String}
    (step : (Tx × List String) → String → (Tx × List String))
    (hstep : ∀ a l, dmem a.1 k = true → dmem (step a l).1 k = true) :
    ∀ (ls : List String) (t : Tx) (e : List String), dmem t k = true →
      dmem (ls.foldl step (t, e)).1 k = true
  | [], _, _, h => h
  | l :: rest, t, e, h => by
    rw [List.foldl_cons]
    have h2 := dmem_foldl_mono step hstep rest (step (t, e) l).1 (step (t, e) l).2
      (hstep (t, e) l h)
    exact h2

theorem dmem_phaseAStep_mono {k : String} (a : Tx × List String) (l : String)
    (h : dmem a.1 k = true) : dmem (phaseAStep a l).1 k = true := by
  unfold phaseAStep
  simp only []
  split
  · exact dmem_parse_fx_line_mono _ _ h
  · exact dmem_handle_misc_line_mono _ _ _ (dmem_parse_fx_line_mono _ _ h)

theorem dmem_append_field_mono (tx : Tx) (key v : String) {k : String}
    (h : dmem tx k = true) : dmem (append_field tx key v) k = true := by
  unfold append_field
  split
  · exact h
  · split <;> exact dmem_dset_mono _ _ _ h

theorem dmem_phaseDStep_mono {k : String} (a : Tx × List String) (l : String)
    (h : dmem a.1 k = true) : dmem (phaseDStep a l).1 k = true := by
  unfold phaseDStep
  split
  · exact h
  · split
    · exact dmem_append_field_mono _ _ _ h
    · simp only []
      split
      · exact dmem_parse_fx_line_mono _ _ h
      · exact dmem_handle_misc_line_mono _ _ _ (dmem_parse_fx_line_mono _ _ h)

theorem dmem_applyFxDefault_mono (tx : Tx) {k : String}
    (h : dmem tx k = true) : dmem (applyFxDefault tx) k = true := by
  unfold applyFxDefault
  split
  · exact h
  · exact dmem_dset_mono _ _ _ h

theorem dmem_finishTx (tx : Tx) (bl : List String) {k : String}
    (hne : k ≠ "Mena_hlavicka") (h : dmem tx k = true) :
    dmem (finishTx tx bl) k = true := by
  unfold finishTx
  rw [dmem_dpop_ne _ (Ne.symm hne)]
  exact dmem_dset_mono _ _ _ (dmem_applyFxDefault_mono _ h)

theorem dmem_foldl_dset_seed_mono :
    ∀ (ks : List String) (d0 : Tx) {k : String}, dmem d0 k = true →
      dmem (ks.foldl (fun d k' => dset d k' PyVal.none) d0) k = true
  | [], _, _, h => h
  | _ :: rest, _, _, h =>
    dmem_foldl_dset_seed_mono rest _ (dmem_dset_mono _ _ _ h)

theorem dmem_foldl_dset_seed :
    ∀ (ks : List String) (d0 : Tx) {k : String}, k ∈ ks →
      dmem (ks.foldl (fun d k' => dset d k' PyVal.none) d0) k = true
  | k0 :: rest, d0, k, h => by
    rcases List.mem_cons.mp h with h1 | h1
    · subst h1
      exact dmem_foldl_dset_seed_mono rest _ (dmem_dset_self d0 k PyVal.none)
    · exact dmem_foldl_dset_seed rest _ h1

theorem dmem_dupdate_of_entry :
    ∀ (d : Tx) (tx : Tx) {k : String}, (∃ v, (k, v) ∈ d) →
      dmem (dupdate tx d) k = true
  | kv :: rest, tx, k, ⟨v, hv⟩ => by
    rcases List.mem_cons.mp hv with h1 | h1
    · have : dmem (dset tx kv.1 kv.2) k = true := by
        rw [← h1]
        exact dmem_dset_self tx k v
      calc dmem (dupdate tx (kv :: rest)) k
          = dmem (dupdate (dset tx kv.1 kv.2) rest) k := by
            simp [dupdate, List.foldl_cons]
        _ = true := dmem_dupdate_mono rest _ this
    · calc dmem (dupdate tx (kv :: rest)) k
          = dmem (dupdate (dset tx kv.1 kv.2) rest) k := by
            simp [dupdate, List.foldl_cons]
        _ = true := dmem_dupdate_of_entry rest _ ⟨v, h1⟩

/-! ## Header and block structure lemmas -/

theorem parse_header_line_isSome (line : String) :
    (parse_header_line line).isSome = (dateReMatch line).isSome := by
  unfold parse_header_line
  split <;> rename_i heq <;> simp [heq]

theorem parse_header_line_fields {line : String} {hdr : Tx} (tx0 : Tx)
    (hh : parse_header_line line = some hdr) :
    ∃ g e r, dateReMatch line = some (g, e, r) ∧
      dget (dupdate tx0 hdr) "Datum" = PyVal.str (pyStrip g) ∧
      dmem (dupdate tx0 hdr) "Karta_sit" = true := by
  unfold parse_header_line at hh
  split at hh
  · exact Option.noConfusion hh
  · rename_i g e r heq
    rw [Option.some.injEq] at hh
    subst hh
    refine ⟨g, e, r, heq, ?_, ?_⟩
    · simp only [dupdate, List.foldl_cons, List.foldl_nil]
      rw [dget_dset_ne _ _ (by decide), dget_dset_ne _ _ (by decide),
        dget_dset_ne _ _ (by decide), dget_dset_ne _ _ (by decide),
        dget_dset_ne _ _ (by decide), dget_dset_ne _ _ (by decide),
        dget_dset_ne _ _ (by decide), dget_dset_ne _ _ (by decide),
        dget_dset_self]
    · simp only [dupdate, List.foldl_cons, List.foldl_nil]
      exact dmem_dset_mono _ _ _ (dmem_dset_mono _ _ _ (dmem_dset_mono _ _ _
        (dmem_dset_self _ _ _)))

theorem process_block_isSome {first : String} (rest : List String)
    (h : (parse_header_line first).isSome = true) :
    (process_block (first :: rest)).isSome = true := by
  rcases hh : parse_header_line first with _ | hdr
  · rw [hh] at h
    exact absurd h (by simp)
  · unfold process_block
    simp only []
    rw [hh]
    simp only []
    split
    · simp
    · split <;> simp

/-- The structural content of an accepted `process_block` run: the record
is `finishTx` of a core dict that agrees with the header overlay on every
key outside `DETAIL_WRITE_KEYS`, and whose key set contains the overlay's
keys. -/
theorem process_block_spec {bl : List String} {tx : Tx}
    (hp : process_block bl = some tx) :
    ∃ first rest hdr core, bl = first :: rest ∧
      parse_header_line first = some hdr ∧ tx = finishTx core bl ∧
      (∀ k, k ∉ DETAIL_WRITE_KEYS →
        dget core k =
          dget (dupdate (COLUMNS.foldl (fun d k' => dset d k' PyVal.none) []) hdr) k) ∧
      (∀ k, dmem (dupdate (COLUMNS.foldl (fun d k' => dset d k' PyVal.none) []) hdr) k = true →
        dmem core k = true) := by
  rcases bl with _ | ⟨first, rest⟩
  · exact Option.noConfusion hp
  unfold process_block at hp
  simp only [] at hp
  rcases hh : parse_header_line first with _ | hdr0
  · rw [hh] at hp
    exact Option.noConfusion hp
  rw [hh] at hp
  simp only [] at hp
  refine ⟨first, rest, hdr0, ?_⟩
  split at hp
  · rw [Option.some.injEq] at hp
    exact ⟨_, rfl, hh, hp.symm, fun _ _ => rfl, fun _ hk => hk⟩
  · rename_i li heqLi
    rw [Option.some.injEq] at hp
    generalize hpA : List.foldl phaseAStep
      (dupdate (List.foldl (fun d k => dset d k PyVal.none) [] COLUMNS) hdr0, [])
      (List.take (li - 1) (List.drop 1 (first :: rest))) = pA at hp
    generalize hpd : parse_detail_lines (List.drop (li + 1) (first :: rest)) pA.1 = pd at hp
    refine ⟨_, rfl, hh, hp.symm, ?_, ?_⟩
    · intro k hk
      have nD : "Doplnek" ≠ k := ne_of_not_mem hk (by decide)
      have hA : dget pA.1 k =
          dget (dupdate (List.foldl (fun d k' => dset d k' PyVal.none) [] COLUMNS) hdr0) k := by
        rw [← hpA]
        exact foldl_dget_stable phaseAStep (phaseAStep_dget_stable hk) _ _ _
      have hB : dget pd.1 k = dget pA.1 k := by
        rw [← hpd]
        exact parse_detail_lines_dget_stable hk
      have hC : dget (List.foldl phaseDStep (pd.1, pA.2 ++ pd.2.1) pd.2.2).1 k =
          dget pd.1 k :=
        foldl_dget_stable phaseDStep (phaseDStep_dget_stable hk) _ _ _
      split
      · rw [dget_dset_ne _ _ nD, hC, hB, hA]
      · rw [hC, hB, hA]
    · intro k hk
      have baseA : dmem pA.1 k = true := by
        rw [← hpA]
        exact dmem_foldl_mono phaseAStep (fun a l => dmem_phaseAStep_mono a l) _ _ _ hk
      have h3 : dmem pd.1 k = true := by
        rw [← hpd]
        exact dmem_parse_detail_lines_mono _ _ baseA
      have hD : dmem (List.foldl phaseDStep (pd.1, pA.2 ++ pd.2.1) pd.2.2).1 k = true :=
        dmem_foldl_mono phaseDStep (fun a l => dmem_phaseDStep_mono a l) _ _ _ h3
      split
      · exact dmem_dset_mono _ _ _ hD
      · exact hD

/-! ## Date-skeleton and segmentation lemmas -/

theorem dateSkeleton_shape {strict : Bool} {cs g r : Chars}
    (h : dateSkeleton strict cs = some (g, r)) :
    ∃ c t, g = c :: t ∧ c.isDigit = true := by
  unfold dateSkeleton at h
  rcases h1 : pDayDot cs with _ | ⟨d1, r1⟩ <;> rw [h1] at h
  · simp at h
  simp only [] at h
  split at h
  · exact Option.noConfusion h
  rcases h2 : pDayDot (r1.dropWhile isPyWs) with _ | ⟨d2, r2⟩ <;> rw [h2] at h
  · simp at h
  simp only [] at h
  split at h
  · exact Option.noConfusion h
  rcases h3 : pYear4 (r2.dropWhile isPyWs) with _ | ⟨y, r3⟩ <;> rw [h3] at h
  · simp at h
  have h4 := Option.some.inj h
  have hg : d1 ++ r1.takeWhile isPyWs ++ d2 ++ r2.takeWhile isPyWs ++ y = g :=
    congrArg Prod.fst h4
  obtain ⟨c, t, hct, hdig⟩ := pDayDot_shape h1
  refine ⟨c, t ++ (r1.takeWhile isPyWs ++ (d2 ++ (r2.takeWhile isPyWs ++ y))),
    ?_, hdig⟩
  rw [← hg, hct]
  simp

theorem dateSkeleton_strict_lax {cs : Chars} {p : Chars × Chars}
    (h : dateSkeleton true cs = some p) : dateSkeleton false cs = some p := by
  unfold dateSkeleton at h ⊢
  rcases h1 : pDayDot cs with _ | ⟨d1, r1⟩ <;> rw [h1] at h
  · simp at h
  simp only [] at h ⊢
  split at h
  · exact Option.noConfusion h
  rcases h2 : pDayDot (r1.dropWhile isPyWs) with _ | ⟨d2, r2⟩ <;> rw [h2] at h
  · simp at h
  simp only [] at h ⊢
  split at h
  · exact Option.noConfusion h
  rcases h3 : pYear4 (r2.dropWhile isPyWs) with _ | ⟨y, r3⟩ <;> rw [h3] at h
  · simp at h
  exact h

theorem dateReMatch_shape {s : String} {g : String} {e : ℕ} {r : Chars}
    (h : dateReMatch s = some (g, e, r)) :
    ∃ c t, g = String.mk (c :: t) ∧ c.isDigit = true := by
  unfold dateReMatch at h
  split at h
  · rename_i gc rc heq
    rw [Option.some.injEq, Prod.mk.injEq] at h
    obtain ⟨hg, _⟩ := h
    obtain ⟨c, t, hct, hdig⟩ := dateSkeleton_shape heq
    exact ⟨c, t, by rw [← hg, hct], hdig⟩
  · exact Option.noConfusion h

theorem headerReMatch_dateReMatch {s : String} (h : headerReMatch s = true) :
    (dateReMatch s).isSome = true := by
  unfold headerReMatch at h
  split at h
  · rename_i g rest heq
    unfold dateReMatch
    rw [dateSkeleton_strict_lax heq]
    rfl
  · exact absurd h (by simp)

theorem segGo_flatten : ∀ (lines cur : List String), cur ≠ [] →
    (segGo cur lines).flatten = cur ++ lines
  | [], cur, h => by
    have hc : cur.isEmpty = false := by simpa using h
    simp [segGo, hc]
  | l :: rest, cur, h => by
    have hc : cur.isEmpty = false := by simpa using h
    rw [segGo]
    by_cases hh : headerReMatch l = true
    · simp [hh, hc, segGo_flatten rest [l] (by simp)]
    · simp [hh, hc, segGo_flatten rest (cur ++ [l]) (by simp)]

theorem segGo_nil_flatten : ∀ (lines : List String),
    (segGo [] lines).flatten = lines.dropWhile (fun l => !headerReMatch l)
  | [] => by simp [segGo]
  | l :: rest => by
    rw [segGo]
    by_cases hh : headerReMatch l = true
    · simp [hh, segGo_flatten rest [l] (by simp), List.dropWhile_cons]
    · have hh' : headerReMatch l = false := by
        revert hh
        cases headerReMatch l <;> simp
      simp [hh', segGo_nil_flatten rest, List.dropWhile_cons]

theorem segGo_blocks : ∀ (lines cur : List String),
    (cur = [] ∨ ∃ h t, cur = h :: t ∧ headerReMatch h = true) →
    ∀ b ∈ segGo cur lines, ∃ h t, b = h :: t ∧ headerReMatch h = true
  | [], cur, hc, b, hb => by
    unfold segGo at hb
    split at hb
    · simp at hb
    · rename_i hcur
      simp only [List.mem_singleton] at hb
      subst hb
      rcases hc with h1 | h1
      · subst h1
        simp at hcur
      · exact h1
  | l :: rest, cur, hc, b, hb => by
    unfold segGo at hb
    split at hb
    · rename_i hh
      rw [List.mem_append] at hb
      rcases hb with hb | hb
      · split at hb
        · simp at hb
        · rename_i hcur
          simp only [List.mem_singleton] at hb
          subst hb
          rcases hc with h1 | h1
          · subst h1
            simp at hcur
          · exact h1
      · exact segGo_blocks rest [l] (Or.inr ⟨l, [], rfl, hh⟩) b hb
    · rcases hc with h1 | h1
      · subst h1
        simp only [List.isEmpty_nil, if_true] at hb
        exact segGo_blocks rest [] (Or.inl rfl) b hb
      · obtain ⟨h0, t0, hcur, hhead⟩ := h1
        subst hcur
        simp only [List.isEmpty_cons, Bool.false_eq_true, if_false] at hb
        exact segGo_blocks rest _ (Or.inr ⟨h0, t0 ++ [l], by simp, hhead⟩) b hb

theorem length_filterMap_of_isSome {α β : Type} (f : α → Option β) :
    ∀ (l : List α), (∀ a ∈ l, (f a).isSome = true) →
      (l.filterMap f).length = l.length
  | [], _ => rfl
  | a :: rest, h => by
    rcases hf : f a with _ | b
    · have h1 := h a (by simp)
      rw [hf] at h1
      exact absurd h1 (by simp)
    · simp only [List.filterMap_cons, hf, List.length_cons]
      rw [length_filterMap_of_isSome f rest (fun x hx => h x (by simp [hx]))]

/-! ## Uppercasing and strip lemmas (currency normalization) -/

theorem asciiUpper_eq_or (c : Char) :
    asciiUpper c = c ∨ (asciiUpper c ∈ upperAZchars ∧ isPyWs c = false) := by
  unfold asciiUpper
  split <;> first | decide | (left; rfl)

theorem asciiUpper_mem_fix : ∀ x ∈ upperAZchars, asciiUpper x = x := by decide

theorem isPyWs_mem_upperAZ : ∀ x ∈ upperAZchars, isPyWs x = false := by decide

theorem isPyWs_asciiUpper (c : Char) : isPyWs (asciiUpper c) = isPyWs c := by
  rcases asciiUpper_eq_or c with h | ⟨h1, h2⟩
  · rw [h]
  · rw [h2, isPyWs_mem_upperAZ _ h1]

theorem asciiUpper_idem (c : Char) : asciiUpper (asciiUpper c) = asciiUpper c := by
  rcases asciiUpper_eq_or c with h | ⟨h1, _⟩
  · rw [h]
    exact h
  · exact asciiUpper_mem_fix _ h1

theorem dropWhile_self_idem {α : Type} (p : α → Bool) :
    ∀ l : List α, (l.dropWhile p).dropWhile p = l.dropWhile p
  | [] => rfl
  | a :: t => by
    by_cases h : p a = true
    · rw [List.dropWhile_cons, if_pos h]
      exact dropWhile_self_idem p t
    · rw [List.dropWhile_cons, if_neg h, List.dropWhile_cons, if_neg h]

theorem head_dropWhile_false {α : Type} (p : α → Bool) :
    ∀ (l : List α) {c : α}, (l.dropWhile p).head? = some c → p c = false
  | [], c, h => Option.noConfusion h
  | a :: t, c, h => by
    by_cases hp : p a = true
    · rw [List.dropWhile_cons, if_pos hp] at h
      exact head_dropWhile_false p t h
    · rw [List.dropWhile_cons, if_neg hp] at h
      simp only [List.head?_cons, Option.some.injEq] at h
      subst h
      simp only [Bool.not_eq_true] at hp
      exact hp

theorem dropWhile_of_head_false {α : Type} (p : α → Bool) (l : List α)
    (h : ∀ c, l.head? = some c → p c = false) : l.dropWhile p = l := by
  cases l with
  | nil => rfl
  | cons a t =>
    rw [List.dropWhile_cons, h a rfl]
    simp

theorem getLast_dropWhile_eq {α : Type} (p : α → Bool) :
    ∀ l : List α, l.dropWhile p ≠ [] → (l.dropWhile p).getLast? = l.getLast?
  | [], h => absurd rfl h
  | a :: t, h => by
    by_cases hp : p a = true
    · rw [List.dropWhile_cons, if_pos hp] at h ⊢
      rw [getLast_dropWhile_eq p t h]
      cases t with
      | nil => exact absurd rfl h
      | cons b t2 => rw [List.getLast?_cons_cons]
    · rw [List.dropWhile_cons, if_neg hp]

theorem pyStripChars_head_not_ws {l : Chars} {c : Char}
    (h : (pyStripChars l).head? = some c) : isPyWs c = false := by
  unfold pyStripChars at h
  rw [List.head?_reverse] at h
  have hne : (l.dropWhile isPyWs).reverse.dropWhile isPyWs ≠ [] := by
    intro h0
    rw [h0] at h
    exact Option.noConfusion h
  rw [getLast_dropWhile_eq _ _ hne, List.getLast?_reverse] at h
  exact head_dropWhile_false _ _ h

theorem pyStripChars_idem (l : Chars) :
    pyStripChars (pyStripChars l) = pyStripChars l := by
  show (((pyStripChars l).dropWhile isPyWs).reverse.dropWhile isPyWs).reverse =
    pyStripChars l
  rw [dropWhile_of_head_false isPyWs _ (fun c hc => pyStripChars_head_not_ws hc)]
  unfold pyStripChars
  rw [List.reverse_reverse, dropWhile_self_idem]

theorem dropWhile_map_asciiUpper : ∀ l : Chars,
    (l.map asciiUpper).dropWhile isPyWs = (l.dropWhile isPyWs).map asciiUpper
  | [] => rfl
  | a :: t => by
    by_cases h : isPyWs a = true
    · rw [List.map_cons, List.dropWhile_cons, List.dropWhile_cons,
        isPyWs_asciiUpper, if_pos h, if_pos h]
      exact dropWhile_map_asciiUpper t
    · rw [List.map_cons, List.dropWhile_cons, List.dropWhile_cons,
        isPyWs_asciiUpper, if_neg h, if_neg h, List.map_cons]

theorem pyStripChars_map_asciiUpper (l : Chars) :
    pyStripChars (l.map asciiUpper) = (pyStripChars l).map asciiUpper := by
  unfold pyStripChars
  rw [dropWhile_map_asciiUpper, ← List.map_reverse, dropWhile_map_asciiUpper,
    ← List.map_reverse]

theorem pyStrip_pyUpper_pyStrip (s : String) :
    pyStrip (pyUpper (pyStrip s)) = pyUpper (pyStrip s) := by
  show String.mk (pyStripChars ((pyStripChars s.data).map asciiUpper)) =
    String.mk ((pyStripChars s.data).map asciiUpper)
  rw [pyStripChars_map_asciiUpper, pyStripChars_idem]

theorem pyUpper_idem (s : String) : pyUpper (pyUpper s) = pyUpper s := by
  show String.mk ((s.data.map asciiUpper).map asciiUpper) =
    String.mk (s.data.map asciiUpper)
  rw [List.map_map]
  have h : asciiUpper ∘ asciiUpper = asciiUpper := funext asciiUpper_idem
  rw [h]

theorem pyUpper_ne_empty {s : String} (h : s ≠ "") : pyUpper s ≠ "" := by
  intro h0
  apply h
  rw [String.ext_iff] at h0 ⊢
  have h1 : s.data.map asciiUpper = [] := h0
  rw [List.map_eq_nil_iff] at h1
  exact h1

theorem normalize_currency_token_some (t : String) :
    normalize_currency_token (some t) =
      (if t = "" then Option.none
       else if strStartsWith (pyUpper (pyStrip t)) "K" then some "CZK"
       else some (pyUpper (pyStrip t))) := rfl

theorem normalize_idem_of_strip_ne (s : String) (hs : pyStrip s ≠ "") :
    normalize_currency_token (normalize_currency_token (some s)) =
      normalize_currency_token (some s) := by
  have hsne : s ≠ "" := fun h => hs (by rw [h]; decide)
  have hune : pyUpper (pyStrip s) ≠ "" := pyUpper_ne_empty hs
  rw [normalize_currency_token_some s, if_neg hsne]
  by_cases hK : strStartsWith (pyUpper (pyStrip s)) "K" = true
  · rw [if_pos hK]
    decide
  · rw [if_neg hK]
    rw [normalize_currency_token_some, if_neg hune]
    have hstab : pyUpper (pyStrip (pyUpper (pyStrip s))) = pyUpper (pyStrip s) := by
      rw [pyStrip_pyUpper_pyStrip, pyUpper_idem]
    rw [hstab, if_neg hK]

theorem normalize_K_of_head (s : String) (c : Char)
    (hc : (pyStrip s).data.head? = some c) (hK : c = 'K' ∨ c = 'k') :
    normalize_currency_token (some s) = some "CZK" := by
  have hsne : s ≠ "" := by
    intro h
    rw [h] at hc
    exact Option.noConfusion hc
  rw [normalize_currency_token_some, if_neg hsne]
  have hKdata : "K".data = ['K'] := by decide
  have hKK : strStartsWith (pyUpper (pyStrip s)) "K" = true := by
    show List.isPrefixOf "K".data ((pyStrip s).data.map asciiUpper) = true
    rcases hd : (pyStrip s).data with _ | ⟨c0, t⟩
    · rw [hd] at hc
      exact Option.noConfusion hc
    · rw [hd] at hc
      simp only [List.head?_cons, Option.some.injEq] at hc
      subst hc
      rw [hKdata, List.map_cons]
      rcases hK with h | h <;> subst h <;> simp [List.isPrefixOf] <;> decide
  rw [if_pos hKK]

/-! ## Misc-handler, schema and amount-parse lemmas -/

theorem handle_misc_fallback (line : String) (tx : Tx) (extra : List String)
    (h1 : is_ignored_line line = false)
    (h2 : strStartsWith (normalize_text line) "popis pro me" = false)
    (h3 : strStartsWith (normalize_text line) "id souvisejici platby" = false)
    (h4 : strStartsWith (normalize_text line) "atm id" = false) :
    handle_misc_line line tx extra = (tx, extra ++ [pyStrip line]) := by
  unfold handle_misc_line
  simp only [h1, h2, h3, h4, Bool.false_eq_true, if_false]

theorem process_block_blok_text {bl : List String} {tx : Tx}
    (hp : process_block bl = some tx) :
    dget tx "Blok_text" = PyVal.str (joinBar bl) := by
  obtain ⟨first, rest, hdr, core, hfr, hh, htx, _, _⟩ := process_block_spec hp
  rw [htx]
  unfold finishTx
  rw [dget_dpop_ne _ (by decide), dget_dset_self]

theorem process_block_columns {bl : List String} {tx : Tx}
    (hp : process_block bl = some tx) {k : String} (hk : k ∈ COLUMNS) :
    dmem tx k = true := by
  obtain ⟨first, rest, hdr, core, hfr, hh, htx, _, hmem⟩ := process_block_spec hp
  have hkM : k ≠ "Mena_hlavicka" := by
    rintro rfl
    revert hk
    decide
  rw [htx]
  apply dmem_finishTx _ _ hkM
  apply hmem
  exact dmem_dupdate_mono _ _ (dmem_foldl_dset_seed COLUMNS [] hk)

theorem option_match_neg_eq_map (b : Bool) (o : Option ℚ) :
    (match o with
     | Option.none => Option.none
     | some v => some (if b then -v else v)) =
      o.map (fun v => if b then -v else v) := by
  rcases o with _ | v <;> rfl

theorem cz_amount_eq_amended (s : String) :
    cz_amount_to_float s = parse_amount_amended s := by
  unfold cz_amount_to_float parse_amount_amended
  simp only []
  rw [option_match_neg_eq_map]
  rfl

/-! ## The claims -/

/-- C1 counterexample: on the claim's FX scenario block the rate quote
currency field ends as "USD", not the claimed "CZK": `FX_RATE_RE`'s
`currency` group captures the base currency on the left of the
quotation, and the `K`-prefixed token after `=` is never normalized into
the field. -/
theorem C1_counterexample :
    (process_block c1Block).map (fun tx => dget tx "FX_kurz_mena") =
      some (PyVal.str "USD") ∧
    (process_block c1Block).map (fun tx => dget tx "FX_kurz_mena") ≠
      some (PyVal.str "CZK") :=
  ⟨by decide, by decide⟩

/-- C1 (corrected): for a block whose body contains "10.3.2024 50,00 USD"
followed by "1 USD = 22,50 Kc", the emitted record has FX currency "USD",
FX amount "50,00", FX rate "22,50" and FX rate quote currency "USD" (the
base currency captured by the rate regex). -/
theorem C1_fx_scenario :
    (process_block c1Block).map (fun tx =>
      (dget tx "FX_mena", dget tx "FX_castka", dget tx "FX_kurz",
        dget tx "FX_kurz_mena")) =
    some (PyVal.str "USD", PyVal.str "50,00", PyVal.str "22,50",
      PyVal.str "USD") := by
  decide

/-- C2 counterexample: on the claim's block the card-mask field is not the
claimed "123456 45** **** 7890" — it is left null, because
`CARD_MASK_RE` wants four digits, whitespace, then two digits before the
asterisks, and the six-digit prefix leaves no word boundary for a
four-digit match. -/
theorem C2_counterexample :
    (process_block c2Block).map (fun tx => dget tx "Karta") =
      some PyVal.none ∧
    (process_block c2Block).map (fun tx => dget tx "Karta") ≠
      some (PyVal.str "123456 45** **** 7890") :=
  ⟨by decide, by decide⟩

/-- C2 (corrected): on the simple domestic purchase block the record has
date "12. 3. 2024", the counterparty retains the mask text, the card-mask
field is null, amount -456, execution date "13. 3. 2024", code "CODE",
type "PLATBA KARTOU" and the three payment symbols empty. -/
theorem C2_purchase_scenario :
    (process_block c2Block).map (fun tx =>
      (dget tx "Datum", dget tx "Protistrana", dget tx "Karta",
        dget tx "Castka_CZK", dget tx "Datum_provedeni",
        dget tx "Kod_transakce", dget tx "Typ_transakce",
        dget tx "VS", dget tx "SS", dget tx "KS")) =
    some (PyVal.str "12. 3. 2024",
      PyVal.str "SOME SHOP LTD 123456 45** **** 7890", PyVal.none,
      PyVal.num (-456), PyVal.str "13. 3. 2024", PyVal.str "CODE",
      PyVal.str "PLATBA KARTOU", PyVal.str "", PyVal.str "",
      PyVal.str "") := by
  rfl

/-- C3 (confirmed): the lines discarded before the first header-shaped
line, followed by the concatenation of all segmented blocks in order,
reconstruct the input stream exactly — every line lands in exactly one
block or in the discarded prefix. -/
theorem C3_segmentation_coverage (lines : List String) :
    lines.takeWhile (fun l => !headerReMatch l) ++
      (segmentLines lines).flatten = lines := by
  unfold segmentLines
  rw [segGo_nil_flatten]
  exact List.takeWhile_append_dropWhile (fun l => !headerReMatch l) lines

/-- C4 counterexample: the body line of `c4Block` matches no classifier
(not ignorable, not FX-shaped), yet the supplement field of the emitted
record is null — in a block without a label line the body is never routed
to the misc handler, so the unmatched line does not become supplement
text. -/
theorem C4_counterexample :
    is_ignored_line "UNMATCHED FREE TEXT" = false ∧
    (parse_fx_line "UNMATCHED FREE TEXT" []).2 = false ∧
    (process_block c4Block).map (fun tx => dget tx "Doplnek") =
      some PyVal.none :=
  ⟨by decide, by decide, by decide⟩

/-- C4 (corrected): no line of an accepted block is silently lost — the
audit field always holds every line of the block joined with " | "; and
whenever the misc handler does see a line that no classifier matched
(not ignorable, not one of the three labeled prefixes), it appends the
stripped line to the supplement list.  Blocks without a label line never
route body lines to the misc handler, so there the audit field is the
only place they survive. -/
theorem C4_no_silent_loss_amended :
    (∀ (bl : List String) (tx : Tx), process_block bl = some tx →
      dget tx "Blok_text" = PyVal.str (joinBar bl)) ∧
    (∀ (line : String) (tx : Tx) (extra : List String),
      is_ignored_line line = false →
      strStartsWith (normalize_text line) "popis pro me" = false →
      strStartsWith (normalize_text line) "id souvisejici platby" = false →
      strStartsWith (normalize_text line) "atm id" = false →
      handle_misc_line line tx extra = (tx, extra ++ [pyStrip line])) :=
  ⟨fun _ _ hp => process_block_blok_text hp, handle_misc_fallback⟩

/-- C4 witness: the amended theorem applied to the concrete `c4Block`
and to its unclassifiable body line. -/
theorem C4_witness :
    (process_block c4Block).map (fun tx => dget tx "Blok_text") =
      some (PyVal.str (joinBar c4Block)) ∧
    handle_misc_line "UNMATCHED FREE TEXT" [] [] =
      ([], ["UNMATCHED FREE TEXT"]) := by
  constructor
  · rcases hp : process_block c4Block with _ | tx
    · exact absurd hp (by decide)
    · rw [Option.map_some', C4_no_silent_loss_amended.1 c4Block tx hp]
  · rw [C4_no_silent_loss_amended.2 "UNMATCHED FREE TEXT" [] []
      (by decide) (by decide) (by decide) (by decide)]
    decide

/-- C5 counterexample: the emitted record for `c2Block` carries the key
"Karta_sit", which is not in the schema's fixed field set `COLUMNS` —
the header extractor's auxiliary keys survive into the record. -/
theorem C5_counterexample :
    (process_block c2Block).map (fun tx => dmem tx "Karta_sit") =
      some true ∧
    "Karta_sit" ∉ COLUMNS :=
  ⟨by decide, by decide⟩

/-- C5 (corrected): every emitted record contains at least every field of
the `COLUMNS` schema (absent ones with null/empty values) — but the
record is not limited to that set. -/
theorem C5_schema_amended (bl : List String) :
    (process_block bl).all
      (fun tx => COLUMNS.all (fun k => dmem tx k)) = true := by
  cases hp : process_block bl with
  | none => rfl
  | some tx =>
    show COLUMNS.all (fun k => dmem tx k) = true
    rw [List.all_eq_true]
    intro k hk
    exact process_block_columns hp hk

/-- C6 counterexample: on "12,00-" the implementation parses 12 (every
minus sign is removed, the remembered sign coming from a leading minus
only), while the spec's procedure — strip a leading minus only — leaves
the trailing minus in place and fails the numeric parse. -/
theorem C6_counterexample :
    cz_amount_to_float "12,00-" = some 12 ∧
    parse_amount_spec "12,00-" = Option.none :=
  ⟨by decide, by decide⟩

/-- C6 (corrected): `cz_amount_to_float` equals the spec's procedure
amended in the minus step: every minus sign is removed (and the text
re-stripped), with the sign remembered from a leading minus only. -/
theorem C6_parse_amount_amended (s : String) :
    cz_amount_to_float s = parse_amount_amended s :=
  cz_amount_eq_amended s

/-- C7 counterexample: the normalizer is not idempotent on every input —
a whitespace-only token maps to `some ""` (truthy input, empty after
strip-and-uppercase), which a second application maps to `none`. -/
theorem C7_counterexample :
    normalize_currency_token (some " ") = some "" ∧
    normalize_currency_token (normalize_currency_token (some " ")) =
      Option.none ∧
    normalize_currency_token (normalize_currency_token (some " ")) ≠
      normalize_currency_token (some " ") :=
  ⟨by decide, by decide, by decide⟩

/-- C7 (corrected): the normalizer is idempotent on every token whose
stripped text is nonempty (the whitespace-only tokens are the only
exception), and any token whose stripped text starts with the letter K
(either case) maps to the fixed code "CZK". -/
theorem C7_normalize_amended (s : String) :
    (pyStrip s ≠ "" →
      normalize_currency_token (normalize_currency_token (some s)) =
        normalize_currency_token (some s)) ∧
    (∀ c : Char, (pyStrip s).data.head? = some c → c = 'K' ∨ c = 'k' →
      normalize_currency_token (some s) = some "CZK") :=
  ⟨normalize_idem_of_strip_ne s, normalize_K_of_head s⟩

/-- C7 witness: the amended theorem applied to the tokens "usd" and
"kč". -/
theorem C7_witness :
    normalize_currency_token (normalize_currency_token (some "usd")) =
      normalize_currency_token (some "usd") ∧
    normalize_currency_token (some "kč") = some "CZK" :=
  ⟨(C7_normalize_amended "usd").1 (by decide),
   (C7_normalize_amended "kč").2 'k' (by decide) (Or.inr rfl)⟩

/-- C8 counterexample: on a line matched both by the rate shape (at its
start) and by the date+amount shape (later), the implementation sets the
rate fields — the rate shape is tried first — while the spec's stated
order (date+amount, amount-only, rate) would set the date/amount/currency
fields instead. -/
theorem C8_counterexample :
    parse_fx_line c8Line [] =
      ([("FX_kurz", PyVal.str "22,50"), ("FX_kurz_mena", PyVal.str "USD")],
        true) ∧
    parse_fx_line_spec c8Line [] =
      ([("FX_datum", PyVal.str "1.1.2024"), ("FX_castka", PyVal.str "10,00"),
        ("FX_mena", PyVal.str "EUR"),
        ("FX_info", PyVal.str "1 USD = 22,50 Kc")], true) ∧
    parse_fx_line c8Line [] ≠ parse_fx_line_spec c8Line [] :=
  ⟨by decide, by decide, by decide⟩

/-- C8 (corrected): the FX line parser tries the three shapes in the
order rate, date+amount, amount-only (not the spec's listed order), first
match winning, and sets each field only if it is currently unset; hence
applying it twice with the same line leaves the record and the consumed
flag exactly as one application does. -/
theorem C8_fx_idempotent (line : String) (tx : Tx) :
    parse_fx_line line (parse_fx_line line tx).1 = parse_fx_line line tx := by
  rcases hR : fxRateMatch line with _ | ⟨ccy, rate⟩
  · rcases hD : fxDateAmtSearch line with _ | ⟨pre, d, a, c⟩
    · rcases hA : fxAmountOnlyMatch line with _ | ⟨a, c⟩
      · by_cases hk : isSubstr "kurz" (pyLower line) <;>
          simp [parse_fx_line, hR, hD, hA, hk]
      · obtain ⟨⟨da, ta, hda, hdig⟩, x, y, z, hxyz⟩ := fxAmountOnlyMatch_shape hA
        have hva : (PyVal.str (removeChar a ' ')).truthy = true := by
          rw [hda]
          exact truthy_removeChar_of_digit_head ta hdig
        have hvc : (PyVal.str c).truthy = true := by
          rw [hxyz]
          exact truthy_str_mk_cons x [y, z]
        simp only [parse_fx_line, hR, hD, hA]
        set T := setIfUnset (setIfUnset tx "FX_castka" (PyVal.str (removeChar a ' ')))
          "FX_mena" (PyVal.str c) with hT
        have h1 : (dget T "FX_castka").truthy = true := by
          rw [hT, setIfUnset_get_other _ _ (by decide)]
          exact setIfUnset_get_self hva
        have h2 : (dget T "FX_mena").truthy = true := by
          rw [hT]
          exact setIfUnset_get_self hvc
        rw [setIfUnset_noop h1, setIfUnset_noop h2]
    · obtain ⟨cs2, hAt⟩ := fxDateAmtSearchAux_shape line.data [] hD
      obtain ⟨⟨dd, td, hdd, hdigd⟩, ⟨da, ta, hda, hdiga⟩, x, y, z, hxyz⟩ :=
        fxDateAmtAt_shape hAt
      have hvd : (PyVal.str d).truthy = true := by
        rw [hdd]
        exact truthy_str_mk_cons dd td
      have hva : (PyVal.str (removeChar a ' ')).truthy = true := by
        rw [hda]
        exact truthy_removeChar_of_digit_head ta hdiga
      have hvc : (PyVal.str c).truthy = true := by
        rw [hxyz]
        exact truthy_str_mk_cons x [y, z]
      simp only [parse_fx_line, hR, hD]
      by_cases hp : (String.mk (pyStripChars pre) != "") = true
      · simp only [hp, if_true]
        set T := setIfUnset (setIfUnset (setIfUnset (setIfUnset tx "FX_datum"
          (PyVal.str d)) "FX_castka" (PyVal.str (removeChar a ' '))) "FX_mena"
          (PyVal.str c)) "FX_info" (PyVal.str (String.mk (pyStripChars pre))) with hT
        have h1 : (dget T "FX_datum").truthy = true := by
          rw [hT, setIfUnset_get_other _ _ (by decide),
            setIfUnset_get_other _ _ (by decide), setIfUnset_get_other _ _ (by decide)]
          exact setIfUnset_get_self hvd
        have h2 : (dget T "FX_castka").truthy = true := by
          rw [hT, setIfUnset_get_other _ _ (by decide),
            setIfUnset_get_other _ _ (by decide)]
          exact setIfUnset_get_self hva
        have h3 : (dget T "FX_mena").truthy = true := by
          rw [hT, setIfUnset_get_other _ _ (by decide)]
          exact setIfUnset_get_self hvc
        have h4 : (dget T "FX_info").truthy = true := by
          rw [hT]
          exact setIfUnset_get_self hp
        rw [setIfUnset_noop h1, setIfUnset_noop h2, setIfUnset_noop h3,
          setIfUnset_noop h4]
      · simp only [Bool.not_eq_true] at hp
        simp only [hp, Bool.false_eq_true, if_false]
        set T := setIfUnset (setIfUnset (setIfUnset tx "FX_datum" (PyVal.str d))
          "FX_castka" (PyVal.str (removeChar a ' '))) "FX_mena" (PyVal.str c) with hT
        have h1 : (dget T "FX_datum").truthy = true := by
          rw [hT, setIfUnset_get_other _ _ (by decide),
            setIfUnset_get_other _ _ (by decide)]
          exact setIfUnset_get_self hvd
        have h2 : (dget T "FX_castka").truthy = true := by
          rw [hT, setIfUnset_get_other _ _ (by decide)]
          exact setIfUnset_get_self hva
        have h3 : (dget T "FX_mena").truthy = true := setIfUnset_get_self hvc
        rw [setIfUnset_noop h1, setIfUnset_noop h2, setIfUnset_noop h3]
  · obtain ⟨⟨x, y, z, hxyz⟩, dd, td, hdd, hdig⟩ := fxRateMatch_shape hR
    have hvr : (PyVal.str (removeChar rate ' ')).truthy = true := by
      rw [hdd]
      exact truthy_removeChar_of_digit_head td hdig
    have hvc : (PyVal.str ccy).truthy = true := by
      rw [hxyz]
      exact truthy_str_mk_cons x [y, z]
    simp only [parse_fx_line, hR]
    set T := setIfUnset (setIfUnset tx "FX_kurz" (PyVal.str (removeChar rate ' ')))
      "FX_kurz_mena" (PyVal.str ccy) with hT
    have h1 : (dget T "FX_kurz").truthy = true := by
      rw [hT, setIfUnset_get_other _ _ (by decide)]
      exact setIfUnset_get_self hvr
    have h2 : (dget T "FX_kurz_mena").truthy = true := by
      rw [hT]
      exact setIfUnset_get_self hvc
    rw [setIfUnset_noop h1, setIfUnset_noop h2]

/-- C9 (confirmed): every emitted record has a truthy FX currency, and
the finalization default sets it — when unset — to the header currency
if that is truthy, otherwise to the fixed code "CZK". -/
theorem C9_fx_currency_default :
    (∀ bl : List String,
      (process_block bl).all (fun tx => (dget tx "FX_mena").truthy) = true) ∧
    (∀ tx : Tx, dget (applyFxDefault tx) "FX_mena" =
      (if (dget tx "FX_mena").truthy then dget tx "FX_mena"
       else if (dget tx "Mena_hlavicka").truthy then dget tx "Mena_hlavicka"
       else PyVal.str "CZK")) := by
  constructor
  · intro bl
    cases hp : process_block bl with
    | none => rfl
    | some tx =>
      show (dget tx "FX_mena").truthy = true
      obtain ⟨_, _, _, core, _, _, htx, _, _⟩ := process_block_spec hp
      rw [htx]
      exact finishTx_FX_mena_truthy core bl
  · exact applyFxDefault_FX_mena

/-- C10 (confirmed): every block produced by the segmenter starts with a
header-shaped line, so the header parse succeeds, the rejection branch is
never taken, every block yields exactly one record, and each record has a
truthy transaction date. -/
theorem C10_blocks_all_accepted (lines : List String) :
    (segmentLines lines).all (fun bl => (process_block bl).isSome) = true ∧
    (extract_transactions lines).length = (segmentLines lines).length ∧
    (extract_transactions lines).all
      (fun tx => (dget tx "Datum").truthy) = true := by
  have hblocks := segGo_blocks lines [] (Or.inl rfl)
  have hsome : ∀ bl ∈ segmentLines lines, (process_block bl).isSome = true := by
    intro bl hb
    obtain ⟨h0, t0, rfl, hh⟩ := hblocks bl hb
    refine process_block_isSome t0 ?_
    rw [parse_header_line_isSome]
    exact headerReMatch_dateReMatch hh
  refine ⟨?_, ?_, ?_⟩
  · rw [List.all_eq_true]
    exact hsome
  · exact length_filterMap_of_isSome process_block (segmentLines lines) hsome
  · rw [List.all_eq_true]
    intro tx htx
    unfold extract_transactions at htx
    rw [List.mem_filterMap] at htx
    obtain ⟨bl, hbl, hp⟩ := htx
    obtain ⟨first, rest, hdr, core, hfr, hh, htxeq, hstable, _⟩ :=
      process_block_spec hp
    obtain ⟨g, e, r, hdate, hdget, _⟩ := parse_header_line_fields
      (COLUMNS.foldl (fun d k' => dset d k' PyVal.none) []) hh
    have h1 : dget tx "Datum" = PyVal.str (pyStrip g) := by
      rw [htxeq, finishTx_dget_stable _ _ (by decide) (by decide) (by decide),
        hstable "Datum" (by decide), hdget]
    obtain ⟨c, t0, hgt, hdig⟩ := dateReMatch_shape hdate
    rw [h1, hgt]
    exact truthy_strip_of_digit_head t0 hdig

end KB
